import Mathlib

/-!
Verification model of the hikey-linux page-pool subsystem.

The development shallowly embeds the page-pool code of this repository:

* the DMA-BUF page pool ("run-counting variant", `drm_page_pool_*_v1` below):
  `drm_page_pool_add` / `drm_page_pool_fetch` / `drm_page_pool_shrink_one` /
  `drm_page_pool_shrink_scan` with the `total_pages` counter, where `count`
  counts runs and insertion is `list_add_tail`;
* the sharable page pool ("shared variant", `drm_page_pool_*_v2` below):
  `drm_page_pool_add` / `drm_page_pool_remove` / `drm_page_pool_shrink` /
  `drm_page_pool_shrinker_scan` with the `nr_managed_pages` counter, where
  `page_count` counts base pages, insertion is `list_add`, pages are zeroed
  on add, and `drm_page_pool_add` trims the pool against `page_pool_size`;
* `ttm_pool_alloc` (drivers/gpu/drm/ttm/ttm_pool.c), modelled as a loop over
  an environment of allocator / caching / mapping results;
* the dynamic (ION-style) page pool: `dynamic_page_pool_do_shrink` and the
  deferred-clean worker (`dynamic_page_pool_clean` and helpers).

Machine integers are modelled as `Nat`/`Int` (the counters are
`atomic_long_t`, modelled as `Int`; none of the modelled quantities can
overflow 64 bits on the inputs considered).  Loops are modelled by
structural recursion on an explicit fuel parameter; every lemma that needs
the loop to have run to completion either supplies sufficient fuel or is
conditional on the returned completion flag.
-/

/-- Kernel MAX_ORDER constant (default buddy allocator configuration):
allocation orders range over [0, MAX_ORDER). -/
def MAX_ORDER : Nat := 11

/-- Fuel-driven helper for `fls`: `flsAux fuel n` is floor(log2 n) once
`fuel >= n`. -/
def flsAux : Nat → Nat → Nat
  | 0, _ => 0
  | fuel + 1, n => if n ≤ 1 then 0 else flsAux fuel (n / 2) + 1

/-- Model of the kernel `__fls` on a positive argument: the index of the most
significant set bit, i.e. floor(log2 n).  (`__fls 0` is undefined in the
kernel; the model returns 0 and no theorem relies on that value.) -/
def fls (n : Nat) : Nat := flsAux n n

theorem flsAux_fuel_irrel : ∀ fuel g n, n ≤ fuel → n ≤ g → flsAux fuel n = flsAux g n := by
  intro fuel
  induction fuel with
  | zero =>
    intro g n hf _
    interval_cases n
    cases g <;> simp [flsAux]
  | succ f ih =>
    intro g n hf hg
    by_cases h1 : n ≤ 1
    · cases g <;> simp [flsAux, h1]
    · cases g with
      | zero => omega
      | succ g0 =>
        simp only [flsAux, h1, if_false]
        have hdiv : n / 2 ≤ f := by omega
        have hdiv2 : n / 2 ≤ g0 := by omega
        rw [ih g0 (n / 2) hdiv hdiv2]

theorem fls_mono {m n : Nat} (h : m ≤ n) : fls m ≤ fls n := by
  have aux : ∀ fuel m n, m ≤ n → n ≤ fuel → flsAux fuel m ≤ flsAux fuel n := by
    intro fuel
    induction fuel with
    | zero => intro m n _ _; simp [flsAux]
    | succ f ih =>
      intro m n hmn hnf
      by_cases hn1 : n ≤ 1
      · have hm1 : m ≤ 1 := le_trans hmn hn1
        simp [flsAux, hn1, hm1]
      · by_cases hm1 : m ≤ 1
        · simp [flsAux, hm1]
        · simp only [flsAux, hn1, hm1, if_false]
          have := ih (m / 2) (n / 2) (by omega) (by omega)
          omega
  calc fls m = flsAux n m := flsAux_fuel_irrel m n m le_rfl h
  _ ≤ flsAux n n := aux n m n h le_rfl
  _ = fls n := rfl

theorem two_pow_fls_le {n : Nat} (h : 1 ≤ n) : 2 ^ fls n ≤ n := by
  have aux : ∀ fuel n, 1 ≤ n → n ≤ fuel → 2 ^ flsAux fuel n ≤ n := by
    intro fuel
    induction fuel with
    | zero => intro n h1 h2; omega
    | succ f ih =>
      intro n h1 h2
      by_cases hn1 : n ≤ 1
      · simp [flsAux, hn1]; omega
      · simp only [flsAux, hn1, if_false, pow_succ]
        have := ih (n / 2) (by omega) (by omega)
        omega
  exact aux n n h le_rfl

/-- Positional lookup in a list (the model of walking an intrusive kernel
list to a given element). -/
def getAt {α : Type} : Nat → List α → Option α
  | _, [] => none
  | 0, x :: _ => some x
  | n + 1, _ :: tl => getAt n tl

/-- Positional update in a list. -/
def updateAt {α : Type} : Nat → (α → α) → List α → List α
  | _, _, [] => []
  | 0, f, x :: tl => f x :: tl
  | n + 1, f, x :: tl => x :: updateAt n f tl

theorem getAt_updateAt_same {α : Type} :
    ∀ (n : Nat) (f : α → α) (l : List α), getAt n (updateAt n f l) = (getAt n l).map f := by
  intro n
  induction n with
  | zero => intro f l; cases l <;> simp [getAt, updateAt]
  | succ k ih => intro f l; cases l <;> simp [getAt, updateAt, ih]

theorem length_updateAt {α : Type} :
    ∀ (n : Nat) (f : α → α) (l : List α), (updateAt n f l).length = l.length := by
  intro n
  induction n with
  | zero => intro f l; cases l <;> simp [updateAt]
  | succ k ih => intro f l; cases l <;> simp [updateAt, ih]

theorem mem_updateAt {α : Type} :
    ∀ (n : Nat) (f : α → α) (l : List α) (p : α), p ∈ updateAt n f l →
      p ∈ l ∨ ∃ x, getAt n l = some x ∧ p = f x := by
  intro n
  induction n with
  | zero =>
    intro f l p hp
    cases l with
    | nil => simp [updateAt] at hp
    | cons x tl =>
      simp only [updateAt, List.mem_cons] at hp
      rcases hp with h | h
      · exact Or.inr ⟨x, rfl, h⟩
      · exact Or.inl (List.mem_cons_of_mem _ h)
  | succ k ih =>
    intro f l p hp
    cases l with
    | nil => simp [updateAt] at hp
    | cons x tl =>
      simp only [updateAt, List.mem_cons] at hp
      rcases hp with h | h
      · exact Or.inl (by simp [h])
      · rcases ih f tl p h with h' | ⟨y, hy, hpy⟩
        · exact Or.inl (List.mem_cons_of_mem _ h')
        · exact Or.inr ⟨y, by simpa [getAt] using hy, hpy⟩

theorem sum_map_updateAt {α : Type} :
    ∀ (n : Nat) (f : α → α) (g : α → Nat) (l : List α) (x : α), getAt n l = some x →
      ((updateAt n f l).map g).sum + g x = (l.map g).sum + g (f x) := by
  intro n
  induction n with
  | zero =>
    intro f g l x hx
    cases l with
    | nil => simp [getAt] at hx
    | cons y tl =>
      simp only [getAt, Option.some.injEq] at hx
      subst hx
      simp [updateAt]
      omega
  | succ k ih =>
    intro f g l x hx
    cases l with
    | nil => simp [getAt] at hx
    | cons y tl =>
      simp only [getAt] at hx
      have := ih f g tl x hx
      simp [updateAt]
      omega

/-! Lock events, used to model the locking structure of the reclaim paths. -/

/-- Lock and callback events emitted by the reclaim functions: acquiring and
releasing the registry lock (`pool_list_lock` / `shrinker_lock`), acquiring
and releasing the selected bucket's spinlock, and invoking the bucket's
free-callback on a run (identified by its id). -/
inductive LockEv where
  | regAcq : LockEv
  | regRel : LockEv
  | bktAcq : LockEv
  | bktRel : LockEv
  | freeCb : Nat → LockEv
deriving DecidableEq

/-- Checks that, at every `freeCb` event of the trace, the registry lock depth
is exactly `rWant` and the bucket lock depth is exactly `bWant`. -/
def cbDepthsAre (rWant bWant : Int) : List LockEv → Int → Int → Bool
  | [], _, _ => true
  | .regAcq :: tl, r, b => cbDepthsAre rWant bWant tl (r + 1) b
  | .regRel :: tl, r, b => cbDepthsAre rWant bWant tl (r - 1) b
  | .bktAcq :: tl, r, b => cbDepthsAre rWant bWant tl r (b + 1)
  | .bktRel :: tl, r, b => cbDepthsAre rWant bWant tl r (b - 1)
  | .freeCb _ :: tl, r, b =>
    if r = rWant ∧ b = bWant then cbDepthsAre rWant bWant tl r b else false

/-- Property of a reclaim trace: every free-callback runs with the registry
lock released (depth 0).  This is what the specification asserts. -/
def cbOutsideRegistryLock (tr : List LockEv) : Bool := cbDepthsAre 0 0 tr 0 0

/-- Property of a reclaim trace: every free-callback runs with the registry
lock held (depth 1) and the bucket lock released. -/
def cbInsideRegistryLock (tr : List LockEv) : Bool := cbDepthsAre 1 0 tr 0 0

/-! Variant 1: the DMA-BUF page pool (run-counting pools, `total_pages`). -/

/-- Pool of the run-counting variant: `order`, `count` (number of runs) and
the `items` list of runs (run ids), head of the list first. -/
structure Pool1 where
  order : Nat
  count : Nat
  items : List Nat
deriving DecidableEq

/-- Global state of the run-counting variant: `pool_list` (head first, the
reclaim order), the `total_pages` counter, and the accumulated list of runs
handed to free-callbacks, each with the order it was freed at. -/
structure Sys1 where
  pools : List Pool1
  total : Int
  freed : List (Nat × Nat)
deriving DecidableEq

/-- Base pages represented by a freed-run list of the run-counting variant. -/
def pagesOfFreed (l : List (Nat × Nat)) : Nat := (l.map fun x => 2 ^ x.2).sum

/-- Model of `drm_page_pool_add` (run-counting variant): `list_add_tail` the
run, increment `count`, add `1 << order` to `total_pages`.  An index naming
no pool leaves the state unchanged (the caller always passes a live pool). -/
def drm_page_pool_add_v1 (idx : Nat) (id : Nat) (st : Sys1) : Sys1 :=
  match getAt idx st.pools with
  | none => st
  | some pool =>
    { st with
      pools := updateAt idx
        (fun p => { p with items := p.items ++ [id], count := p.count + 1 }) st.pools,
      total := st.total + 2 ^ pool.order }

/-- Model of the static `drm_page_pool_remove` (run-counting variant): return
NULL when `count` is zero, otherwise pop `list_first_entry`, decrement
`count`.  (`list_first_entry` on an empty list is undefined behaviour in the
kernel; the model returns `none` there, a state unreachable while
`count = items.length`.) -/
def drm_page_pool_remove_v1 (p : Pool1) : Option Nat × Pool1 :=
  if p.count = 0 then (none, p)
  else
    match p.items with
    | [] => (none, p)
    | x :: tl => (some x, { p with items := tl, count := p.count - 1 })

/-- Model of `drm_page_pool_fetch` (run-counting variant) on the pool at a
given position: take the bucket lock, remove, and on success subtract
`1 << order` from `total_pages` (the subtraction sits inside
`drm_page_pool_remove` in the source). -/
def drm_page_pool_fetch_v1 (idx : Nat) (st : Sys1) : Option Nat × Sys1 :=
  match getAt idx st.pools with
  | none => (none, st)
  | some pool =>
    match drm_page_pool_remove_v1 pool with
    | (none, _) => (none, st)
    | (some x, pool1) =>
      (some x,
       { st with pools := updateAt idx (fun _ => pool1) st.pools,
                 total := st.total - 2 ^ pool.order })

/-- Rotation of the pool list: `list_move_tail` of the head pool. -/
def rotate1 : List Pool1 → List Pool1
  | [] => []
  | p :: ps => ps ++ [p]

/-- Model of `drm_page_pool_shrink_one`: under `pool_list_lock`, pick the
first pool, remove one run under its spinlock, free it through the
free-callback (which returns `1 << order`, as `ttm_pool_free_page` does) and
rotate the pool to the tail.  Also returns the lock/callback event trace.
(`list_first_entry` on an empty `pool_list` is undefined behaviour; the
model returns 0 with the lock trace only.) -/
def drm_page_pool_shrink_one (st : Sys1) : Nat × Sys1 × List LockEv :=
  match st.pools with
  | [] => (0, st, [.regAcq, .regRel])
  | pool :: _ =>
    match drm_page_pool_fetch_v1 0 st with
    | (some x, st1) =>
      (2 ^ pool.order,
       { st1 with pools := rotate1 st1.pools, freed := st1.freed ++ [(x, pool.order)] },
       [.regAcq, .bktAcq, .bktRel, .freeCb x, .regRel])
    | (none, st1) =>
      (0, { st1 with pools := rotate1 st1.pools }, [.regAcq, .bktAcq, .bktRel, .regRel])

/-- Loop body of `drm_page_pool_shrink_scan` (run-counting variant):
`do { nr_freed = shrink_one(); to_scan -= nr_freed; nr_total += nr_freed; }
while (to_scan >= 0 && total_pages)`.  Returns the accumulated total, the
final state, and whether the loop exited by its own condition within the
given fuel. -/
def drm_page_pool_shrink_scan_loop : Nat → Int → Sys1 → Nat × Sys1 × Bool
  | 0, _, st => (0, st, false)
  | fuel + 1, toScan, st =>
    let step := drm_page_pool_shrink_one st
    let nf := step.1
    let st1 := step.2.1
    let toScan1 := toScan - nf
    if toScan1 ≥ 0 ∧ st1.total ≠ 0 then
      let rest := drm_page_pool_shrink_scan_loop fuel toScan1 st1
      (nf + rest.1, rest.2.1, rest.2.2)
    else
      (nf, st1, true)

/-- Model of `drm_page_pool_shrink_scan` (run-counting variant): return 0 at
once when `nr_to_scan` is 0, otherwise run the do-while loop. -/
def drm_page_pool_shrink_scan (fuel : Nat) (nrToScan : Int) (st : Sys1) : Nat × Sys1 × Bool :=
  if nrToScan = 0 then (0, st, true)
  else drm_page_pool_shrink_scan_loop fuel nrToScan st

/-- Sum over the pools of the run-counting variant of `count * 2 ^ order`. -/
def pooledPages1 (ps : List Pool1) : Nat := (ps.map fun p => p.count * 2 ^ p.order).sum

/-- Invariant of the run-counting variant: each pool's `count` equals the
number of linked runs, and `total_pages` equals the sum over pools of
`count * 2 ^ order`. -/
def inv1 (st : Sys1) : Prop :=
  st.total = (pooledPages1 st.pools : Int) ∧
  ∀ p ∈ st.pools, p.count = p.items.length

/-! Variant 2: the sharable page pool (page-counting pools, `nr_managed_pages`,
zero-on-add, trim against `page_pool_size`). -/

/-- Run of the shared variant: an aligned block of `2 ^ order` base pages
starting at page-frame `base`; `highMem` models `PageHighMem` of the head
page. -/
structure Run2 where
  id : Nat
  base : Nat
  highMem : Bool
deriving DecidableEq

/-- Pool of the shared variant: `order`, the `pages` list of runs (head of
the list first) and `page_count`, which counts base pages. -/
structure Pool2 where
  order : Nat
  pages : List Run2
  page_count : Nat
deriving DecidableEq

/-- Global state of the shared variant: the `shrinker_list` (head first), the
`nr_managed_pages` counter, the `page_pool_size` tunable, the contents of
every base page (`mem`, one abstract word per page: 0 means the page reads
as zero), and the accumulated list of runs handed to free-callbacks with
their orders. -/
structure Sys2 where
  pools : List Pool2
  nrManaged : Int
  pagePoolSize : Nat
  mem : Nat → Nat
  freed : List (Run2 × Nat)

/-- Base pages represented by a freed-run list of the shared variant. -/
def pagesOfFreed2 (l : List (Run2 × Nat)) : Nat := (l.map fun x => 2 ^ x.2).sum

/-- Zeroing the `n` base pages starting at `base` (the clear_page /
clear_highpage loop of `drm_page_pool_add`: both branches zero page `p+i`). -/
def clearRange (mem : Nat → Nat) (base n : Nat) : Nat → Nat :=
  fun a => if base ≤ a ∧ a < base + n then 0 else mem a

/-- Model of `drm_page_pool_remove` (shared variant) on a single pool: pop
`list_first_entry_or_null`; on success subtract `1 << order` from
`page_count` (the `nr_managed_pages` side is applied by the callers below,
as the model threads the global counter through `Sys2`). -/
def drm_page_pool_remove_v2 (p : Pool2) : Option Run2 × Pool2 :=
  match p.pages with
  | [] => (none, p)
  | r :: tl => (some r, { p with pages := tl, page_count := p.page_count - 2 ^ p.order })

/-- Model of `drm_page_pool_remove` (shared variant) on the pool at a given
position of the shrinker list, threading `nr_managed_pages`. -/
def drm_page_pool_remove_v2_at (idx : Nat) (st : Sys2) : Option (Run2 × Nat) × Sys2 :=
  match getAt idx st.pools with
  | none => (none, st)
  | some pool =>
    match drm_page_pool_remove_v2 pool with
    | (none, _) => (none, st)
    | (some r, pool1) =>
      (some (r, pool.order),
       { st with pools := updateAt idx (fun _ => pool1) st.pools,
                 nrManaged := st.nrManaged - 2 ^ pool.order })

/-- Rotation of the shrinker list: `list_move_tail` of the head pool. -/
def rotate2 : List Pool2 → List Pool2
  | [] => []
  | p :: ps => ps ++ [p]

/-- Model of `drm_page_pool_shrink` (shared variant): under `shrinker_lock`,
pick the first pool of the shrinker list, remove one run, free it through
the free-callback (`num_freed = 1 << order`), rotate the pool to the tail.
Returns the number of base pages freed, the new state and the lock trace.
(`list_first_entry` on an empty `shrinker_list` is undefined behaviour; the
model frees nothing there.) -/
def drm_page_pool_shrink_v2 (st : Sys2) : Nat × Sys2 × List LockEv :=
  match st.pools with
  | [] => (0, st, [.regAcq, .regRel])
  | _ :: _ =>
    match drm_page_pool_remove_v2_at 0 st with
    | (some (r, o), st1) =>
      (2 ^ o,
       { st1 with pools := rotate2 st1.pools, freed := st1.freed ++ [(r, o)] },
       [.regAcq, .bktAcq, .bktRel, .freeCb r.id, .regRel])
    | (none, st1) =>
      (0, { st1 with pools := rotate2 st1.pools }, [.regAcq, .bktAcq, .bktRel, .regRel])

/-- Trim loop at the end of `drm_page_pool_add` (shared variant):
`while (page_pool_size && (drm_page_pool_get_total() > page_pool_size))
drm_page_pool_shrink();`.  Returns the final state, the number of
`drm_page_pool_shrink` invocations, and whether the loop exited by its own
condition within the given fuel. -/
def drm_page_pool_add_trim : Nat → Sys2 → Sys2 × Nat × Bool
  | 0, st =>
    if st.pagePoolSize ≠ 0 ∧ st.nrManaged > (st.pagePoolSize : Int) then (st, 0, false)
    else (st, 0, true)
  | fuel + 1, st =>
    if st.pagePoolSize ≠ 0 ∧ st.nrManaged > (st.pagePoolSize : Int) then
      let st1 := (drm_page_pool_shrink_v2 st).2.1
      let rest := drm_page_pool_add_trim fuel st1
      (rest.1, rest.2.1 + 1, rest.2.2)
    else (st, 0, true)

/-- Model of `drm_page_pool_add` (shared variant) on the pool at a given
position: zero all `1 << order` base pages of the run, `list_add` (prepend)
it, add `1 << order` to `page_count` and to `nr_managed_pages`, then run the
trim loop against `page_pool_size`. -/
def drm_page_pool_add_v2 (fuel idx : Nat) (r : Run2) (st : Sys2) : Sys2 × Nat × Bool :=
  match getAt idx st.pools with
  | none => (st, 0, true)
  | some pool =>
    let st1 : Sys2 :=
      { st with
        mem := clearRange st.mem r.base (2 ^ pool.order),
        pools := updateAt idx
          (fun p => { p with pages := r :: p.pages, page_count := p.page_count + 2 ^ p.order })
          st.pools,
        nrManaged := st.nrManaged + 2 ^ pool.order }
    drm_page_pool_add_trim fuel st1

/-- Loop of `drm_page_pool_shrinker_scan` (shared variant):
`do num_freed += drm_page_pool_shrink(); while (!num_freed &&
atomic_long_read(&nr_managed_pages));`.  Note the loop ignores
`sc->nr_to_scan` entirely.  Returns the accumulated count, the final state
and whether the loop exited by its own condition within the given fuel. -/
def drm_page_pool_shrinker_scan_loop : Nat → Nat → Sys2 → Nat × Sys2 × Bool
  | 0, acc, st => (acc, st, false)
  | fuel + 1, acc, st =>
    let step := drm_page_pool_shrink_v2 st
    let acc1 := acc + step.1
    let st1 := step.2.1
    if acc1 = 0 ∧ st1.nrManaged ≠ 0 then drm_page_pool_shrinker_scan_loop fuel acc1 st1
    else (acc1, st1, true)

/-- Model of `drm_page_pool_shrinker_scan` (shared variant). -/
def drm_page_pool_shrinker_scan (fuel : Nat) (st : Sys2) : Nat × Sys2 × Bool :=
  drm_page_pool_shrinker_scan_loop fuel 0 st

/-- Sum over the pools of the shared variant of `page_count`. -/
def pooledPages2 (ps : List Pool2) : Nat := (ps.map Pool2.page_count).sum

/-- Invariant of the shared variant: each pool's `page_count` equals the
number of linked runs times `2 ^ order`, and `nr_managed_pages` equals the
sum over pools of `page_count`. -/
def inv2 (st : Sys2) : Prop :=
  st.nrManaged = (pooledPages2 st.pools : Int) ∧
  ∀ p ∈ st.pools, p.page_count = p.pages.length * 2 ^ p.order

instance (st : Sys2) : Decidable (inv2 st) := by
  unfold inv2
  infer_instance

instance (st : Sys1) : Decidable (inv1 st) := by
  unfold inv1
  infer_instance

theorem getAt_mem {α : Type} :
    ∀ (n : Nat) (l : List α) (x : α), getAt n l = some x → x ∈ l := by
  intro n
  induction n with
  | zero =>
    intro l x h
    cases l with
    | nil => simp [getAt] at h
    | cons y tl => simp only [getAt, Option.some.injEq] at h; simp [h]
  | succ k ih =>
    intro l x h
    cases l with
    | nil => simp [getAt] at h
    | cons y tl => exact List.mem_cons_of_mem _ (ih tl x h)

theorem pooledPages2_rotate (ps : List Pool2) : pooledPages2 (rotate2 ps) = pooledPages2 ps := by
  cases ps with
  | nil => rfl
  | cons p tl => simp [pooledPages2, rotate2]; omega

theorem mem_rotate2 {x : Pool2} {ps : List Pool2} (h : x ∈ rotate2 ps) : x ∈ ps := by
  cases ps with
  | nil => simpa [rotate2] using h
  | cons p tl =>
    simp only [rotate2, List.mem_append, List.mem_singleton] at h
    rcases h with h | h
    · exact List.mem_cons_of_mem _ h
    · simp [h]

theorem inv2_remove_v2_at (idx : Nat) (st : Sys2) (h : inv2 st) :
    inv2 (drm_page_pool_remove_v2_at idx st).2 := by
  unfold drm_page_pool_remove_v2_at
  cases hg : getAt idx st.pools with
  | none => simpa using h
  | some pool =>
    cases hp : pool.pages with
    | nil => simp only [drm_page_pool_remove_v2, hp]; exact h
    | cons r tl =>
      simp only [drm_page_pool_remove_v2, hp]
      have hpc : pool.page_count = (tl.length + 1) * 2 ^ pool.order := by
        have := h.2 pool (getAt_mem idx st.pools pool hg)
        simpa [hp] using this
      have hge : 2 ^ pool.order ≤ pool.page_count := by
        rw [hpc]
        calc 2 ^ pool.order = 1 * 2 ^ pool.order := (one_mul _).symm
        _ ≤ (tl.length + 1) * 2 ^ pool.order := Nat.mul_le_mul_right _ (by omega)
      constructor
      · have hsum := sum_map_updateAt idx
          (fun _ => { pool with pages := tl, page_count := pool.page_count - 2 ^ pool.order })
          Pool2.page_count st.pools pool hg
        have h1 := h.1
        unfold pooledPages2 at h1 ⊢
        simp only at hsum
        dsimp only
        rw [h1]
        have hpow2 : ((2 ^ pool.order : Nat) : Int) = (2 : Int) ^ pool.order := by push_cast; rfl
        rw [← hpow2]
        omega
      · intro p hmem
        rcases mem_updateAt idx _ st.pools p hmem with h' | ⟨x, hx, rfl⟩
        · exact h.2 p h'
        · rw [hg] at hx
          cases hx
          simp only
          rw [hpc, Nat.succ_mul, Nat.add_sub_cancel]

theorem inv2_shrink_v2 (st : Sys2) (h : inv2 st) :
    inv2 (drm_page_pool_shrink_v2 st).2.1 := by
  unfold drm_page_pool_shrink_v2
  cases hps : st.pools with
  | nil => simpa using h
  | cons p tl =>
    have hrem := inv2_remove_v2_at 0 st h
    cases hr : drm_page_pool_remove_v2_at 0 st with
    | mk res st1 =>
      have h1 : inv2 st1 := by rw [hr] at hrem; exact hrem
      cases res with
      | none =>
        simp only
        refine ⟨?_, ?_⟩
        · have := h1.1
          simpa [pooledPages2_rotate] using this
        · intro q hq
          exact h1.2 q (mem_rotate2 hq)
      | some ro =>
        simp only
        refine ⟨?_, ?_⟩
        · have := h1.1
          simpa [pooledPages2_rotate] using this
        · intro q hq
          exact h1.2 q (mem_rotate2 hq)

theorem inv2_add_trim :
    ∀ (fuel : Nat) (st : Sys2), inv2 st → inv2 (drm_page_pool_add_trim fuel st).1 := by
  intro fuel
  induction fuel with
  | zero =>
    intro st h
    unfold drm_page_pool_add_trim
    split <;> exact h
  | succ f ih =>
    intro st h
    unfold drm_page_pool_add_trim
    split
    · exact ih _ (inv2_shrink_v2 st h)
    · exact h

theorem inv2_add_v2 (fuel idx : Nat) (r : Run2) (st : Sys2) (h : inv2 st) :
    inv2 (drm_page_pool_add_v2 fuel idx r st).1 := by
  unfold drm_page_pool_add_v2
  cases hg : getAt idx st.pools with
  | none => simpa using h
  | some pool =>
    simp only
    apply inv2_add_trim
    have hpc : pool.page_count = pool.pages.length * 2 ^ pool.order :=
      h.2 pool (getAt_mem idx st.pools pool hg)
    constructor
    · have hsum := sum_map_updateAt idx
        (fun p => { p with pages := r :: p.pages, page_count := p.page_count + 2 ^ p.order })
        Pool2.page_count st.pools pool hg
      have h1 := h.1
      unfold pooledPages2 at h1 ⊢
      simp only at hsum
      dsimp only
      rw [h1]
      have hpow2 : ((2 ^ pool.order : Nat) : Int) = (2 : Int) ^ pool.order := by push_cast; rfl
      rw [← hpow2]
      omega
    · intro p hmem
      rcases mem_updateAt idx _ st.pools p hmem with h' | ⟨x, hx, rfl⟩
      · exact h.2 p h'
      · rw [hg] at hx
        cases hx
        simp only [List.length_cons]
        rw [hpc, Nat.succ_mul]

theorem pooledPages1_rotate (ps : List Pool1) : pooledPages1 (rotate1 ps) = pooledPages1 ps := by
  cases ps with
  | nil => rfl
  | cons p tl => simp [pooledPages1, rotate1]; omega

theorem mem_rotate1 {x : Pool1} {ps : List Pool1} (h : x ∈ rotate1 ps) : x ∈ ps := by
  cases ps with
  | nil => simpa [rotate1] using h
  | cons p tl =>
    simp only [rotate1, List.mem_append, List.mem_singleton] at h
    rcases h with h | h
    · exact List.mem_cons_of_mem _ h
    · simp [h]

theorem inv1_add_v1 (idx id : Nat) (st : Sys1) (h : inv1 st) :
    inv1 (drm_page_pool_add_v1 idx id st) := by
  unfold drm_page_pool_add_v1
  cases hg : getAt idx st.pools with
  | none => exact h
  | some pool =>
    constructor
    · have hsum := sum_map_updateAt idx
        (fun p => { p with items := p.items ++ [id], count := p.count + 1 })
        (fun p => p.count * 2 ^ p.order) st.pools pool hg
      have h1 := h.1
      unfold pooledPages1 at h1 ⊢
      dsimp only
      dsimp only at hsum
      rw [h1]
      have hmul : (pool.count + 1) * 2 ^ pool.order
          = pool.count * 2 ^ pool.order + 2 ^ pool.order := Nat.succ_mul _ _
      have hpow2 : ((2 ^ pool.order : Nat) : Int) = (2 : Int) ^ pool.order := by push_cast; rfl
      rw [← hpow2]
      omega
    · intro p hmem
      rcases mem_updateAt idx _ st.pools p hmem with h' | ⟨x, hx, rfl⟩
      · exact h.2 p h'
      · rw [hg] at hx
        cases hx
        have := h.2 pool (getAt_mem idx st.pools pool hg)
        simp only [List.length_append, List.length_singleton]
        omega

theorem inv1_fetch_v1 (idx : Nat) (st : Sys1) (h : inv1 st) :
    inv1 (drm_page_pool_fetch_v1 idx st).2 := by
  unfold drm_page_pool_fetch_v1
  cases hg : getAt idx st.pools with
  | none => exact h
  | some pool =>
    by_cases hc : pool.count = 0
    · simp only [drm_page_pool_remove_v1, hc, if_true]
      exact h
    · have hlen : pool.count = pool.items.length := h.2 pool (getAt_mem idx st.pools pool hg)
      cases hp : pool.items with
      | nil => simp only [drm_page_pool_remove_v1, hc, if_false, hp]; exact h
      | cons x tl =>
        simp only [drm_page_pool_remove_v1, hc, if_false, hp]
        constructor
        · have hsum := sum_map_updateAt idx
            (fun _ => { pool with items := tl, count := pool.count - 1 })
            (fun p => p.count * 2 ^ p.order) st.pools pool hg
          have h1 := h.1
          unfold pooledPages1 at h1 ⊢
          dsimp only
          dsimp only at hsum
          rw [h1]
          have hmul : pool.count * 2 ^ pool.order
              = (pool.count - 1) * 2 ^ pool.order + 2 ^ pool.order := by
            rw [hlen, hp]
            simp [List.length_cons, Nat.succ_mul]
          have hpow2 : ((2 ^ pool.order : Nat) : Int) = (2 : Int) ^ pool.order := by
            push_cast; rfl
          rw [← hpow2]
          omega
        · intro p hmem
          rcases mem_updateAt idx _ st.pools p hmem with h' | ⟨y, hy, rfl⟩
          · exact h.2 p h'
          · rw [hg] at hy
            cases hy
            simp only
            rw [hlen, hp]
            simp

theorem inv1_shrink_one (st : Sys1) (h : inv1 st) :
    inv1 (drm_page_pool_shrink_one st).2.1 := by
  unfold drm_page_pool_shrink_one
  cases hps : st.pools with
  | nil => exact h
  | cons p tl =>
    have hrem := inv1_fetch_v1 0 st h
    cases hr : drm_page_pool_fetch_v1 0 st with
    | mk res st1 =>
      have h1 : inv1 st1 := by rw [hr] at hrem; exact hrem
      cases res with
      | none =>
        refine ⟨?_, ?_⟩
        · have := h1.1
          simpa [pooledPages1_rotate] using this
        · intro q hq
          exact h1.2 q (mem_rotate1 hq)
      | some x =>
        refine ⟨?_, ?_⟩
        · have := h1.1
          simpa [pooledPages1_rotate] using this
        · intro q hq
          exact h1.2 q (mem_rotate1 hq)

/-! Operation sequences over the two pool variants. -/

/-- Client-visible operations on the run-counting variant: hand a run back to
a pool (`drm_page_pool_add`), fetch one (`drm_page_pool_fetch`), or let the
shrinker take one step (`drm_page_pool_shrink_one`). -/
inductive PoolOp1 where
  | add : Nat → Nat → PoolOp1
  | fetch : Nat → PoolOp1
  | shrinkOne : PoolOp1

/-- Applying one operation of the run-counting variant. -/
def applyOp1 (st : Sys1) : PoolOp1 → Sys1
  | .add idx id => drm_page_pool_add_v1 idx id st
  | .fetch idx => (drm_page_pool_fetch_v1 idx st).2
  | .shrinkOne => (drm_page_pool_shrink_one st).2.1

/-- Applying a sequence of operations of the run-counting variant. -/
def applyOps1 (ops : List PoolOp1) (st : Sys1) : Sys1 := ops.foldl applyOp1 st

/-- Initial state of the run-counting variant: one pool per requested order,
each created empty by `drm_page_pool_create`. -/
def drm_page_pool_init_v1 (orders : List Nat) : Sys1 :=
  { pools := orders.map fun o => { order := o, count := 0, items := [] },
    total := 0, freed := [] }

/-- Client-visible operations on the shared variant: hand a run back with
arbitrary caller-written contents (the `dirt` function gives the value of
each base page of the run at hand-back time), fetch a run, or let the
shrinker take one step. -/
inductive PoolOp2 where
  | handBack : Nat → Run2 → (Nat → Nat) → Nat → PoolOp2
  | fetch : Nat → PoolOp2
  | shrink : PoolOp2

/-- Applying one operation of the shared variant.  A hand-back first writes
the caller's contents over the run's base pages, then calls
`drm_page_pool_add` (with the given trim fuel). -/
def applyOp2 (st : Sys2) : PoolOp2 → Sys2
  | .handBack idx r dirt fuel =>
    match getAt idx st.pools with
    | none => st
    | some pool =>
      let stDirty : Sys2 :=
        { st with mem := fun a =>
            if r.base ≤ a ∧ a < r.base + 2 ^ pool.order then dirt a else st.mem a }
      (drm_page_pool_add_v2 fuel idx r stDirty).1
  | .fetch idx => (drm_page_pool_remove_v2_at idx st).2
  | .shrink => (drm_page_pool_shrink_v2 st).2.1

/-- Applying a sequence of operations of the shared variant. -/
def applyOps2 (ops : List PoolOp2) (st : Sys2) : Sys2 := ops.foldl applyOp2 st

/-- Initial state of the shared variant: one pool per requested order, each
created empty by `drm_page_pool_init`, with the given initial page contents
and `page_pool_size` setting. -/
def drm_page_pool_init_v2 (orders : List Nat) (mem0 : Nat → Nat) (pps : Nat) : Sys2 :=
  { pools := orders.map fun o => { order := o, pages := [], page_count := 0 },
    nrManaged := 0, pagePoolSize := pps, mem := mem0, freed := [] }

theorem inv1_applyOp1 (op : PoolOp1) (st : Sys1) (h : inv1 st) : inv1 (applyOp1 st op) := by
  cases op with
  | add idx id => exact inv1_add_v1 idx id st h
  | fetch idx => exact inv1_fetch_v1 idx st h
  | shrinkOne => exact inv1_shrink_one st h

theorem inv1_applyOps1 : ∀ (ops : List PoolOp1) (st : Sys1), inv1 st → inv1 (applyOps1 ops st) := by
  intro ops
  induction ops with
  | nil => intro st h; exact h
  | cons op tl ih =>
    intro st h
    exact ih (applyOp1 st op) (inv1_applyOp1 op st h)

theorem inv2_applyOp2 (op : PoolOp2) (st : Sys2) (h : inv2 st) : inv2 (applyOp2 st op) := by
  cases op with
  | handBack idx r dirt fuel =>
    simp only [applyOp2]
    cases hg : getAt idx st.pools with
    | none => exact h
    | some pool => exact inv2_add_v2 fuel idx r _ h
  | fetch idx => exact inv2_remove_v2_at idx st h
  | shrink => exact inv2_shrink_v2 st h

theorem inv2_applyOps2 : ∀ (ops : List PoolOp2) (st : Sys2), inv2 st → inv2 (applyOps2 ops st) := by
  intro ops
  induction ops with
  | nil => intro st h; exact h
  | cons op tl ih =>
    intro st h
    exact ih (applyOp2 st op) (inv2_applyOp2 op st h)

theorem inv1_init (orders : List Nat) : inv1 (drm_page_pool_init_v1 orders) := by
  constructor
  · have hz : pooledPages1 (orders.map fun o => ({ order := o, count := 0, items := [] } : Pool1)) = 0 := by
      unfold pooledPages1
      apply List.sum_eq_zero
      intro x hx
      simp only [List.map_map, List.mem_map, Function.comp] at hx
      rcases hx with ⟨o, _, rfl⟩
      simp
    simp [drm_page_pool_init_v1, hz]
  · intro p hp
    unfold drm_page_pool_init_v1 at hp
    simp only [List.mem_map] at hp
    rcases hp with ⟨o, _, rfl⟩
    simp

theorem inv2_init (orders : List Nat) (mem0 : Nat → Nat) (pps : Nat) :
    inv2 (drm_page_pool_init_v2 orders mem0 pps) := by
  constructor
  · have hz : pooledPages2 (orders.map fun o => ({ order := o, pages := [], page_count := 0 } : Pool2)) = 0 := by
      unfold pooledPages2
      apply List.sum_eq_zero
      intro x hx
      simp only [List.map_map, List.mem_map, Function.comp] at hx
      rcases hx with ⟨o, _, rfl⟩
      simp
    simp [drm_page_pool_init_v2, hz]
  · intro p hp
    unfold drm_page_pool_init_v2 at hp
    simp only [List.mem_map] at hp
    rcases hp with ⟨o, _, rfl⟩
    simp

/-! Zeroing invariant of the shared variant (pages are cleared on add). -/

/-- Every run held in any pool of the shared variant has all of its
`2 ^ order` base pages reading as zero. -/
def zeroInv (st : Sys2) : Prop :=
  ∀ p ∈ st.pools, ∀ r ∈ p.pages, ∀ j, j < 2 ^ p.order → st.mem (r.base + j) = 0

theorem zeroInv_remove_v2_at (idx : Nat) (st : Sys2) (h : zeroInv st) :
    zeroInv (drm_page_pool_remove_v2_at idx st).2 := by
  unfold drm_page_pool_remove_v2_at
  cases hg : getAt idx st.pools with
  | none => exact h
  | some pool =>
    cases hp : pool.pages with
    | nil => simp only [drm_page_pool_remove_v2, hp]; exact h
    | cons r tl =>
      simp only [drm_page_pool_remove_v2, hp]
      intro p hmem r1 hr1 j hj
      rcases mem_updateAt idx _ st.pools p hmem with h' | ⟨x, hx, rfl⟩
      · exact h p h' r1 hr1 j hj
      · rw [hg] at hx
        cases hx
        simp only at hr1 hj
        exact h pool (getAt_mem idx st.pools pool hg) r1 (by rw [hp]; exact List.mem_cons_of_mem _ hr1) j hj

theorem zeroInv_shrink_v2 (st : Sys2) (h : zeroInv st) :
    zeroInv (drm_page_pool_shrink_v2 st).2.1 := by
  unfold drm_page_pool_shrink_v2
  cases hps : st.pools with
  | nil => exact h
  | cons p tl =>
    have hrem := zeroInv_remove_v2_at 0 st h
    cases hr : drm_page_pool_remove_v2_at 0 st with
    | mk res st1 =>
      have h1 : zeroInv st1 := by rw [hr] at hrem; exact hrem
      cases res with
      | none =>
        intro q hq r1 hr1 j hj
        exact h1 q (mem_rotate2 hq) r1 hr1 j hj
      | some ro =>
        intro q hq r1 hr1 j hj
        exact h1 q (mem_rotate2 hq) r1 hr1 j hj

theorem zeroInv_add_trim :
    ∀ (fuel : Nat) (st : Sys2), zeroInv st → zeroInv (drm_page_pool_add_trim fuel st).1 := by
  intro fuel
  induction fuel with
  | zero =>
    intro st h
    unfold drm_page_pool_add_trim
    split <;> exact h
  | succ f ih =>
    intro st h
    unfold drm_page_pool_add_trim
    split
    · exact ih _ (zeroInv_shrink_v2 st h)
    · exact h

theorem zeroInv_applyOp2 (op : PoolOp2) (st : Sys2) (h : zeroInv st) : zeroInv (applyOp2 st op) := by
  cases op with
  | fetch idx => exact zeroInv_remove_v2_at idx st h
  | shrink => exact zeroInv_shrink_v2 st h
  | handBack idx r dirt fuel =>
    simp only [applyOp2]
    cases hg : getAt idx st.pools with
    | none => exact h
    | some pool =>
      unfold drm_page_pool_add_v2
      dsimp only
      simp only [hg]
      apply zeroInv_add_trim
      intro p hmem r1 hr1 j hj
      simp only [clearRange]
      rcases mem_updateAt idx _ st.pools p hmem with h' | ⟨x, hx, hpx⟩
      · by_cases hin : r.base ≤ r1.base + j ∧ r1.base + j < r.base + 2 ^ pool.order
        · simp [hin]
        · simp only [hin, if_false]
          exact h p h' r1 hr1 j hj
      · rw [hg] at hx
        cases hx
        subst hpx
        simp only at hr1 hj
        rcases List.mem_cons.mp hr1 with hEq | hOld
        · subst hEq
          have hin : r1.base ≤ r1.base + j ∧ r1.base + j < r1.base + 2 ^ pool.order := by
            constructor
            · omega
            · omega
          simp [hin]
        · by_cases hin : r.base ≤ r1.base + j ∧ r1.base + j < r.base + 2 ^ pool.order
          · simp [hin]
          · simp only [hin, if_false]
            exact h pool (getAt_mem idx st.pools pool hg) r1 hOld j hj

theorem zeroInv_applyOps2 :
    ∀ (ops : List PoolOp2) (st : Sys2), zeroInv st → zeroInv (applyOps2 ops st) := by
  intro ops
  induction ops with
  | nil => intro st h; exact h
  | cons op tl ih =>
    intro st h
    exact ih (applyOp2 st op) (zeroInv_applyOp2 op st h)

theorem zeroInv_init (orders : List Nat) (mem0 : Nat → Nat) (pps : Nat) :
    zeroInv (drm_page_pool_init_v2 orders mem0 pps) := by
  intro p hp
  unfold drm_page_pool_init_v2 at hp
  simp only [List.mem_map] at hp
  rcases hp with ⟨o, _, rfl⟩
  intro r hr
  simp at hr

/-! Claim C2. -/

/-- State used to refute claim C2: a shared-variant pool of order 1 after one
`drm_page_pool_add`. -/
def c2_state : Sys2 :=
  (drm_page_pool_add_v2 1 0 { id := 1, base := 0, highMem := false }
    (drm_page_pool_init_v2 [1] (fun _ => 0) 0)).1

/-- Claim C2, counterexample: in the shared variant, after adding a single
run to an order-1 pool, the stored count (`page_count`) is 2 while exactly
one run is linked, and the global counter is 2 while the sum over buckets of
`count * 2 ^ order` is 4.  Both equalities asserted by the claim fail. -/
theorem bucket_count_counterexample :
    (getAt 0 c2_state.pools).map Pool2.page_count = some 2 ∧
    (getAt 0 c2_state.pools).map (fun p => p.pages.length) = some 1 ∧
    (2 : Nat) ≠ 1 ∧
    c2_state.nrManaged = 2 ∧
    (c2_state.pools.map fun p => p.page_count * 2 ^ p.order).sum = 4 ∧
    (2 : Int) ≠ 4 := by
  decide

/-- Claim C2 (amended): in the run-counting variant, every reachable state
satisfies `count = number of linked runs` for each pool and
`total_pages = sum of count * 2 ^ order`; in the shared variant, every
reachable state instead satisfies `page_count = number of linked runs *
2 ^ order` for each pool and `nr_managed_pages = sum of page_count` (not
`sum of page_count * 2 ^ order`). -/
theorem bucket_count_invariants_amended :
    (∀ (orders : List Nat) (ops : List PoolOp1),
      inv1 (applyOps1 ops (drm_page_pool_init_v1 orders))) ∧
    (∀ (orders : List Nat) (mem0 : Nat → Nat) (pps : Nat) (ops : List PoolOp2),
      inv2 (applyOps2 ops (drm_page_pool_init_v2 orders mem0 pps))) :=
  ⟨fun orders ops => inv1_applyOps1 ops _ (inv1_init orders),
   fun orders mem0 pps ops => inv2_applyOps2 ops _ (inv2_init orders mem0 pps)⟩

/-! Claim C9. -/

/-- State used to refute claim C9: a run-counting pool already holding run 5. -/
def c9_state : Sys1 :=
  { pools := [{ order := 0, count := 1, items := [5] }], total := 1, freed := [] }

/-- Claim C9, counterexample: in the run-counting (FIFO) variant, adding run 7
to a bucket already holding run 5 and then removing returns run 5, not the
run just added. -/
theorem add_remove_roundtrip_counterexample :
    (drm_page_pool_fetch_v1 0 (drm_page_pool_add_v1 0 7 c9_state)).1 = some 5 ∧
    (some 5 : Option Nat) ≠ some 7 := by
  decide

theorem add_trim_pps_zero (fuel : Nat) (st : Sys2) (h : st.pagePoolSize = 0) :
    drm_page_pool_add_trim fuel st = (st, 0, true) := by
  cases fuel <;> simp [drm_page_pool_add_trim, h]

/-- Claim C9 (amended): `add(r); remove()` returns the run added only in the
LIFO shared variant (there for every bucket state, provided the max-pool
trim is disabled); in the FIFO run-counting variant `add(r); remove()`
returns the oldest pooled run, which is `r` exactly when the bucket was
empty. -/
theorem add_remove_roundtrip_amended :
    (∀ (st : Sys1) (idx id : Nat) (pool : Pool1), getAt idx st.pools = some pool →
      (drm_page_pool_fetch_v1 idx (drm_page_pool_add_v1 idx id st)).1
        = some (pool.items.headD id)) ∧
    (∀ (st : Sys2) (idx fuel : Nat) (r : Run2) (pool : Pool2), getAt idx st.pools = some pool →
      st.pagePoolSize = 0 →
      (drm_page_pool_remove_v2_at idx (drm_page_pool_add_v2 fuel idx r st).1).1
        = some (r, pool.order)) := by
  constructor
  · intro st idx id pool hg
    unfold drm_page_pool_add_v1
    rw [hg]
    unfold drm_page_pool_fetch_v1
    dsimp only
    rw [getAt_updateAt_same, hg]
    cases hp : pool.items with
    | nil => simp [drm_page_pool_remove_v1, hp]
    | cons x tl => simp [drm_page_pool_remove_v1, hp]
  · intro st idx fuel r pool hg hpps
    unfold drm_page_pool_add_v2
    rw [hg]
    dsimp only
    rw [add_trim_pps_zero fuel _ (by simpa using hpps)]
    unfold drm_page_pool_remove_v2_at
    dsimp only
    rw [getAt_updateAt_same, hg]
    simp [drm_page_pool_remove_v2]

/-- Claim C9 (amended), witness at concrete inputs: round trips through an
empty run-counting bucket and through a shared-variant order-2 bucket both
return the run that was added. -/
theorem add_remove_roundtrip_amended_witness :
    (drm_page_pool_fetch_v1 0 (drm_page_pool_add_v1 0 7 (drm_page_pool_init_v1 [0]))).1
      = some 7 ∧
    (drm_page_pool_remove_v2_at 0 (drm_page_pool_add_v2 3 0
        { id := 4, base := 8, highMem := false }
        (drm_page_pool_init_v2 [2] (fun _ => 5) 0)).1).1
      = some ({ id := 4, base := 8, highMem := false }, 2) := by
  constructor
  · have := add_remove_roundtrip_amended.1 (drm_page_pool_init_v1 [0]) 0 7
      { order := 0, count := 0, items := [] } rfl
    simpa using this
  · have := add_remove_roundtrip_amended.2 (drm_page_pool_init_v2 [2] (fun _ => 5) 0) 0 3
      { id := 4, base := 8, highMem := false }
      { order := 2, pages := [], page_count := 0 } rfl rfl
    simpa using this

/-! Claim C10. -/

/-- Claim C10: in the shared variant, every run returned by
`drm_page_pool_remove` from a state reachable from an initialized pool
system consists entirely of zeroed base pages, regardless of the contents
the callers wrote into the runs they handed back (`drm_page_pool_add`
clears all `2 ^ order` pages before linking the run). -/
theorem add_zeroes_pages (orders : List Nat) (mem0 : Nat → Nat) (pps : Nat)
    (ops : List PoolOp2) (idx : Nat) (r : Run2) (o : Nat)
    (h : (drm_page_pool_remove_v2_at idx
        (applyOps2 ops (drm_page_pool_init_v2 orders mem0 pps))).1 = some (r, o)) :
    ∀ j, j < 2 ^ o →
      (applyOps2 ops (drm_page_pool_init_v2 orders mem0 pps)).mem (r.base + j) = 0 := by
  have hz : zeroInv (applyOps2 ops (drm_page_pool_init_v2 orders mem0 pps)) :=
    zeroInv_applyOps2 ops _ (zeroInv_init orders mem0 pps)
  unfold drm_page_pool_remove_v2_at at h
  cases hg : getAt idx (applyOps2 ops (drm_page_pool_init_v2 orders mem0 pps)).pools with
  | none => rw [hg] at h; simp at h
  | some pool =>
    rw [hg] at h
    cases hp : pool.pages with
    | nil => simp [drm_page_pool_remove_v2, hp] at h
    | cons r0 tl =>
      simp only [drm_page_pool_remove_v2, hp, Option.some.injEq, Prod.mk.injEq] at h
      intro j hj
      refine hz pool (getAt_mem _ _ _ hg) r ?_ j ?_
      · rw [hp, ← h.1]
        exact List.mem_cons_self _ _
      · rw [h.2]
        exact hj

/-- Claim C10, witness: handing back a run of order 1 whose two pages hold 77
and then removing it returns the run with both pages reading 0. -/
theorem add_zeroes_pages_witness :
    (drm_page_pool_remove_v2_at 0 (applyOps2
        [PoolOp2.handBack 0 { id := 1, base := 10, highMem := false } (fun _ => 77) 1]
        (drm_page_pool_init_v2 [1] (fun _ => 9) 0))).1
      = some ({ id := 1, base := 10, highMem := false }, 1) ∧
    (∀ j, j < 2 ^ 1 →
      (applyOps2 [PoolOp2.handBack 0 { id := 1, base := 10, highMem := false } (fun _ => 77) 1]
        (drm_page_pool_init_v2 [1] (fun _ => 9) 0)).mem (10 + j) = 0) := by
  refine ⟨by decide, ?_⟩
  have := add_zeroes_pages [1] (fun _ => 9) 0
    [PoolOp2.handBack 0 { id := 1, base := 10, highMem := false } (fun _ => 77) 1] 0
    { id := 1, base := 10, highMem := false } 1 (by decide)
  simpa using this

/-! Reclaim-scan lemmas for the two variants. -/

theorem pagesOfFreed_append (l1 l2 : List (Nat × Nat)) :
    pagesOfFreed (l1 ++ l2) = pagesOfFreed l1 + pagesOfFreed l2 := by
  simp [pagesOfFreed]

theorem pagesOfFreed2_append (l1 l2 : List (Run2 × Nat)) :
    pagesOfFreed2 (l1 ++ l2) = pagesOfFreed2 l1 + pagesOfFreed2 l2 := by
  simp [pagesOfFreed2]

theorem shrink_one_delta (st : Sys1) :
    ∃ d : List (Nat × Nat),
      (drm_page_pool_shrink_one st).2.1.freed = st.freed ++ d ∧
      (drm_page_pool_shrink_one st).1 = pagesOfFreed d ∧
      (drm_page_pool_shrink_one st).2.1.total = st.total - (pagesOfFreed d : Nat) := by
  unfold drm_page_pool_shrink_one drm_page_pool_fetch_v1 drm_page_pool_remove_v1
  cases hps : st.pools with
  | nil => refine ⟨[], ?_, ?_, ?_⟩ <;> simp [pagesOfFreed]
  | cons pool tl =>
    simp only [getAt]
    by_cases hc : pool.count = 0
    · refine ⟨[], ?_, ?_, ?_⟩ <;> simp [hc, pagesOfFreed]
    · cases hip : pool.items with
      | nil => refine ⟨[], ?_, ?_, ?_⟩ <;> simp [hc, hip, pagesOfFreed]
      | cons x xs =>
        refine ⟨[(x, pool.order)], ?_, ?_, ?_⟩ <;> simp [hc, hip, pagesOfFreed]

theorem shrink_v2_delta (st : Sys2) :
    ∃ d : List (Run2 × Nat),
      (drm_page_pool_shrink_v2 st).2.1.freed = st.freed ++ d ∧
      (drm_page_pool_shrink_v2 st).1 = pagesOfFreed2 d ∧
      (drm_page_pool_shrink_v2 st).2.1.nrManaged = st.nrManaged - (pagesOfFreed2 d : Nat) ∧
      (drm_page_pool_shrink_v2 st).2.1.pagePoolSize = st.pagePoolSize ∧
      (drm_page_pool_shrink_v2 st).2.1.pools.length = st.pools.length := by
  unfold drm_page_pool_shrink_v2 drm_page_pool_remove_v2_at drm_page_pool_remove_v2
  cases hps : st.pools with
  | nil => refine ⟨[], ?_, ?_, ?_, ?_, ?_⟩ <;> simp [hps, pagesOfFreed2]
  | cons pool tl =>
    simp only [getAt]
    cases hip : pool.pages with
    | nil =>
      refine ⟨[], ?_, ?_, ?_, ?_, ?_⟩ <;> simp [hps, hip, pagesOfFreed2, rotate2]
    | cons r rs =>
      refine ⟨[(r, pool.order)], ?_, ?_, ?_, ?_, ?_⟩ <;>
        simp [hps, hip, pagesOfFreed2, rotate2, updateAt, length_updateAt]

theorem shrink_one_total_zero (st : Sys1) (hinv : inv1 st) (h0 : st.total = 0) :
    (drm_page_pool_shrink_one st).1 = 0 ∧ (drm_page_pool_shrink_one st).2.1.total = 0 := by
  unfold drm_page_pool_shrink_one drm_page_pool_fetch_v1 drm_page_pool_remove_v1
  cases hps : st.pools with
  | nil => simp [h0]
  | cons pool tl =>
    have hc : pool.count = 0 := by
      have h1 := hinv.1
      rw [h0, hps] at h1
      unfold pooledPages1 at h1
      have hz : (List.map (fun p => p.count * 2 ^ p.order) (pool :: tl)).sum = 0 := by omega
      have hmem : pool.count * 2 ^ pool.order = 0 := by
        have hin : pool.count * 2 ^ pool.order
            ∈ List.map (fun p => p.count * 2 ^ p.order) (pool :: tl) := by
          simp
        exact List.sum_eq_zero_iff.mp hz _ hin
      have hpow : 0 < 2 ^ pool.order := Nat.pos_pow_of_pos _ (by omega)
      exact (Nat.mul_eq_zero.mp hmem).resolve_right (by omega)
    simp [getAt, hc, h0]

theorem shrink_v2_nr_zero (st : Sys2) (hinv : inv2 st) (h0 : st.nrManaged = 0) :
    (drm_page_pool_shrink_v2 st).1 = 0 ∧ (drm_page_pool_shrink_v2 st).2.1.nrManaged = 0 := by
  unfold drm_page_pool_shrink_v2 drm_page_pool_remove_v2_at drm_page_pool_remove_v2
  cases hps : st.pools with
  | nil => simp [h0]
  | cons pool tl =>
    have hc : pool.pages = [] := by
      have h1 := hinv.1
      rw [h0, hps] at h1
      unfold pooledPages2 at h1
      have hz : (List.map Pool2.page_count (pool :: tl)).sum = 0 := by omega
      have hmem : pool.page_count = 0 := by
        have hin : pool.page_count ∈ List.map Pool2.page_count (pool :: tl) := by simp
        exact List.sum_eq_zero_iff.mp hz _ hin
      have hlen := hinv.2 pool (by rw [hps]; exact List.mem_cons_self _ _)
      have hpow : 0 < 2 ^ pool.order := Nat.pos_pow_of_pos _ (by omega)
      have : pool.pages.length = 0 := by
        by_contra hne
        have : 1 ≤ pool.pages.length := by omega
        nlinarith [hlen]
      exact List.length_eq_zero.mp this
    simp [getAt, hc, h0]

theorem shrink_scan_loop_spec :
    ∀ (fuel : Nat) (toScan : Int) (st : Sys1) (n : Nat) (st1 : Sys1),
      drm_page_pool_shrink_scan_loop fuel toScan st = (n, st1, true) →
      (toScan - (n : Int) < 0 ∨ st1.total = 0) ∧
      ∃ d, st1.freed = st.freed ++ d ∧ n = pagesOfFreed d := by
  intro fuel
  induction fuel with
  | zero =>
    intro toScan st n st1 h
    simp [drm_page_pool_shrink_scan_loop] at h
  | succ f ih =>
    intro toScan st n st1 h
    obtain ⟨d0, hfreed, hnf, htot⟩ := shrink_one_delta st
    rw [drm_page_pool_shrink_scan_loop] at h
    simp only at h
    split at h
    · rename_i hcond
      cases hrest : drm_page_pool_shrink_scan_loop f
          (toScan - (drm_page_pool_shrink_one st).1) (drm_page_pool_shrink_one st).2.1 with
      | mk n2 rest2 =>
        cases rest2 with
        | mk st2 done2 =>
          rw [hrest] at h
          simp only [Prod.mk.injEq] at h
          obtain ⟨hn, hst, hdone⟩ := h
          have := ih (toScan - (drm_page_pool_shrink_one st).1)
            (drm_page_pool_shrink_one st).2.1 n2 st2 (by rw [hrest, hdone])
          obtain ⟨hstop, d1, hfreed1, hn1⟩ := this
          constructor
          · rcases hstop with hlt | hz
            · left
              rw [← hn]
              push_cast
              rw [hnf] at hlt
              push_cast at hlt
              omega
            · right
              rw [← hst]
              exact hz
          · refine ⟨d0 ++ d1, ?_, ?_⟩
            · rw [← hst, hfreed1, hfreed, List.append_assoc]
            · rw [← hn, hn1, hnf, pagesOfFreed_append]
    · rename_i hcond
      simp only [Prod.mk.injEq] at h
      obtain ⟨hn, hst, _⟩ := h
      constructor
      · rw [not_and_or] at hcond
        rcases hcond with hlt | hz
        · left
          rw [← hn, hnf]
          omega
        · right
          rw [← hst]
          omega
      · exact ⟨d0, by rw [← hst, hfreed], by rw [← hn, hnf]⟩

theorem shrinker_scan_loop_spec :
    ∀ (fuel acc : Nat) (st : Sys2) (n : Nat) (st1 : Sys2),
      drm_page_pool_shrinker_scan_loop fuel acc st = (n, st1, true) →
      (n ≠ 0 ∨ st1.nrManaged = 0) ∧
      ∃ d, st1.freed = st.freed ++ d ∧ n = acc + pagesOfFreed2 d := by
  intro fuel
  induction fuel with
  | zero =>
    intro acc st n st1 h
    have hfalse : (drm_page_pool_shrinker_scan_loop 0 acc st).2.2 = false := rfl
    rw [h] at hfalse
    simp at hfalse
  | succ f ih =>
    intro acc st n st1 h
    obtain ⟨d0, hfreed, hnf, hnr, _, _⟩ := shrink_v2_delta st
    rw [drm_page_pool_shrinker_scan_loop] at h
    split at h
    · rename_i hcond
      have := ih (acc + (drm_page_pool_shrink_v2 st).1) (drm_page_pool_shrink_v2 st).2.1 n st1 h
      obtain ⟨hstop, d1, hfreed1, hn1⟩ := this
      refine ⟨hstop, d0 ++ d1, ?_, ?_⟩
      · rw [hfreed1, hfreed, List.append_assoc]
      · rw [hn1, hnf, pagesOfFreed2_append]
        omega
    · rename_i hcond
      simp only [Prod.mk.injEq] at h
      obtain ⟨hn, hst, _⟩ := h
      constructor
      · rw [not_and_or] at hcond
        rcases hcond with hz | hz
        · left
          rw [← hn]
          exact hz
        · right
          rw [← hst]
          omega
      · exact ⟨d0, by rw [← hst, hfreed], by rw [← hn, hnf]⟩

theorem shrink_scan_loop_total_zero (f : Nat) (k : Int) (st : Sys1)
    (hinv : inv1 st) (h0 : st.total = 0) :
    drm_page_pool_shrink_scan_loop (f + 1) k st = (0, (drm_page_pool_shrink_one st).2.1, true) := by
  obtain ⟨hn0, ht0⟩ := shrink_one_total_zero st hinv h0
  rw [drm_page_pool_shrink_scan_loop]
  split
  · rename_i hcond
    exact absurd ht0 hcond.2
  · simp [hn0]

theorem shrinker_scan_loop_nr_zero (f : Nat) (st : Sys2)
    (hinv : inv2 st) (h0 : st.nrManaged = 0) :
    drm_page_pool_shrinker_scan_loop (f + 1) 0 st
      = (0, (drm_page_pool_shrink_v2 st).2.1, true) := by
  obtain ⟨hn0, ht0⟩ := shrink_v2_nr_zero st hinv h0
  rw [drm_page_pool_shrinker_scan_loop]
  split
  · rename_i hcond
    exact absurd ht0 hcond.2
  · simp [hn0]

/-! Claim C4. -/

/-- State used to refute claim C4: one shared-variant order-0 pool holding
three runs, so the global counter is 3. -/
def c4_state : Sys2 :=
  { pools := [{ order := 0,
                pages := [{ id := 1, base := 0, highMem := false },
                          { id := 2, base := 1, highMem := false },
                          { id := 3, base := 2, highMem := false }],
                page_count := 3 }],
    nrManaged := 3, pagePoolSize := 0, mem := fun _ => 0, freed := [] }

/-- Claim C4, counterexample: the shared variant's scan, asked (conceptually)
for nr_to_scan = 100, stops after freeing a single base page, returning 1
with the global counter still at 2 — so it stops although the accumulated
total does not satisfy nr_to_scan and the counter is nonzero (the loop never
reads nr_to_scan). -/
theorem scan_stop_counterexample :
    (drm_page_pool_shrinker_scan 5 c4_state).1 = 1 ∧
    (drm_page_pool_shrinker_scan 5 c4_state).2.1.nrManaged = 2 ∧
    (drm_page_pool_shrinker_scan 5 c4_state).2.2 = true ∧
    ¬ ((100 : Nat) ≤ 1 ∨ ((2 : Int) = 0)) := by
  decide

/-- Claim C4 (amended): the run-counting variant's scan accumulates freed
pages and, whenever its loop exits, either the accumulated total strictly
exceeds nr_to_scan or the global counter is zero, the return value being the
pages freed during the call; the shared variant's scan ignores nr_to_scan
and exits as soon as it has freed anything at all (or the counter is zero),
returning the pages freed.  On an empty pool (counter 0) both variants
return 0 and leave the counter at 0. -/
theorem scan_behavior_amended :
    (∀ (fuel : Nat) (k : Int) (st : Sys1) (n : Nat) (st1 : Sys1), 0 < k →
      drm_page_pool_shrink_scan fuel k st = (n, st1, true) →
      (k < (n : Int) ∨ st1.total = 0) ∧
      ∃ d, st1.freed = st.freed ++ d ∧ n = pagesOfFreed d) ∧
    (∀ (fuel : Nat) (st : Sys2) (n : Nat) (st1 : Sys2),
      drm_page_pool_shrinker_scan fuel st = (n, st1, true) →
      (n ≠ 0 ∨ st1.nrManaged = 0) ∧
      ∃ d, st1.freed = st.freed ++ d ∧ n = pagesOfFreed2 d) ∧
    (∀ (fuel : Nat) (k : Int) (st : Sys1), inv1 st → st.total = 0 → 0 < k → 0 < fuel →
      (drm_page_pool_shrink_scan fuel k st).1 = 0 ∧
      (drm_page_pool_shrink_scan fuel k st).2.1.total = 0 ∧
      (drm_page_pool_shrink_scan fuel k st).2.2 = true) ∧
    (∀ (fuel : Nat) (st : Sys2), inv2 st → st.nrManaged = 0 → 0 < fuel →
      (drm_page_pool_shrinker_scan fuel st).1 = 0 ∧
      (drm_page_pool_shrinker_scan fuel st).2.1.nrManaged = 0 ∧
      (drm_page_pool_shrinker_scan fuel st).2.2 = true) := by
  refine ⟨?_, ?_, ?_, ?_⟩
  · intro fuel k st n st1 hk h
    unfold drm_page_pool_shrink_scan at h
    rw [if_neg (by omega : ¬ k = 0)] at h
    have := shrink_scan_loop_spec fuel k st n st1 h
    obtain ⟨hstop, d, hfreed, hn⟩ := this
    exact ⟨by omega, d, hfreed, hn⟩
  · intro fuel st n st1 h
    unfold drm_page_pool_shrinker_scan at h
    have := shrinker_scan_loop_spec fuel 0 st n st1 h
    obtain ⟨hstop, d, hfreed, hn⟩ := this
    exact ⟨hstop, d, hfreed, by omega⟩
  · intro fuel k st hinv h0 hk hf
    unfold drm_page_pool_shrink_scan
    rw [if_neg (by omega : ¬ k = 0)]
    cases fuel with
    | zero => omega
    | succ f =>
      rw [shrink_scan_loop_total_zero f k st hinv h0]
      exact ⟨rfl, (shrink_one_total_zero st hinv h0).2, rfl⟩
  · intro fuel st hinv h0 hf
    unfold drm_page_pool_shrinker_scan
    cases fuel with
    | zero => omega
    | succ f =>
      rw [shrinker_scan_loop_nr_zero f st hinv h0]
      exact ⟨rfl, (shrink_v2_nr_zero st hinv h0).2, rfl⟩

/-- Claim C4 (amended), witness: on a concrete run-counting system with two
order-0 runs, scan(1) frees both runs (overshooting 1) and returns 2; on an
empty shared-variant system, scan returns 0 and leaves the counter at 0. -/
theorem scan_behavior_amended_witness :
    ((0 : Int) < 1 ∧
      drm_page_pool_shrink_scan 5 1
        { pools := [{ order := 0, count := 2, items := [4, 6] }], total := 2, freed := [] }
        = (2, { pools := [{ order := 0, count := 0, items := [] }], total := 0,
                freed := [(4, 0), (6, 0)] }, true) ∧
      ((1 : Int) < (2 : Nat) ∨ (0 : Int) = 0)) ∧
    (inv2 (drm_page_pool_init_v2 [0] (fun _ => 0) 0) ∧
      (drm_page_pool_shrinker_scan 3 (drm_page_pool_init_v2 [0] (fun _ => 0) 0)).1 = 0 ∧
      (drm_page_pool_shrinker_scan 3
        (drm_page_pool_init_v2 [0] (fun _ => 0) 0)).2.1.nrManaged = 0) := by
  constructor
  · refine ⟨by decide, by decide, ?_⟩
    have := scan_behavior_amended.1 5 1
      { pools := [{ order := 0, count := 2, items := [4, 6] }], total := 2, freed := [] }
      2 { pools := [{ order := 0, count := 0, items := [] }], total := 0,
          freed := [(4, 0), (6, 0)] } (by decide) (by decide)
    exact this.1
  · refine ⟨inv2_init [0] (fun _ => 0) 0, ?_⟩
    have := scan_behavior_amended.2.2.2 3 (drm_page_pool_init_v2 [0] (fun _ => 0) 0)
      (inv2_init [0] (fun _ => 0) 0) rfl (by omega)
    exact ⟨this.1, this.2.1⟩

/-! Claim C5: the trim loop of the shared-variant `drm_page_pool_add`. -/

/-- Index of the first pool of the shrinker list holding at least one run
(the list length when none does). -/
def firstNE : List Pool2 → Nat
  | [] => 0
  | p :: ps => if p.pages = [] then firstNE ps + 1 else 0

/-- Termination measure of the trim loop: the pooled-page counter weighted by
the list length, plus the rotation distance to the first non-empty pool. -/
def mu2 (st : Sys2) : Nat :=
  st.nrManaged.toNat * (st.pools.length + 1) + firstNE st.pools

theorem firstNE_le : ∀ ps : List Pool2, firstNE ps ≤ ps.length := by
  intro ps
  induction ps with
  | nil => simp [firstNE]
  | cons p tl ih =>
    unfold firstNE
    split <;> simp <;> omega

theorem exists_nonempty_pool (st : Sys2) (hinv : inv2 st) (hpos : 0 < st.nrManaged) :
    ∃ p ∈ st.pools, p.pages ≠ [] := by
  by_contra hall
  push_neg at hall
  have hz : ∀ x ∈ st.pools.map Pool2.page_count, x = 0 := by
    intro x hx
    simp only [List.mem_map] at hx
    obtain ⟨p, hp, rfl⟩ := hx
    have := hinv.2 p hp
    rw [hall p hp] at this
    simpa using this
  have hzero : pooledPages2 st.pools = 0 := List.sum_eq_zero hz
  rw [hinv.1, hzero] at hpos
  simp at hpos

theorem firstNE_append_empty (p : Pool2) (hp : p.pages = []) :
    ∀ ps : List Pool2, (∃ q ∈ ps, q.pages ≠ []) → firstNE (ps ++ [p]) = firstNE ps := by
  intro ps
  induction ps with
  | nil =>
    rintro ⟨q, hq, _⟩
    simp at hq
  | cons q qs ih =>
    rintro ⟨q0, hq0, hne⟩
    by_cases hqe : q.pages = []
    · have hq0qs : q0 ∈ qs := by
        rcases List.mem_cons.mp hq0 with rfl | h
        · exact absurd hqe hne
        · exact h
      simp only [List.cons_append, firstNE, hqe, if_true]
      show firstNE (qs ++ [p]) + 1 = firstNE qs + 1
      rw [ih ⟨q0, hq0qs, hne⟩]
    · simp [firstNE, hqe]

theorem shrink_v2_empty_head (st : Sys2) (pool : Pool2) (tl : List Pool2)
    (hps : st.pools = pool :: tl) (hpp : pool.pages = []) :
    (drm_page_pool_shrink_v2 st).2.1 = { st with pools := tl ++ [pool] } := by
  unfold drm_page_pool_shrink_v2 drm_page_pool_remove_v2_at drm_page_pool_remove_v2
  simp [hps, getAt, hpp, rotate2]

theorem shrink_v2_cons_head (st : Sys2) (pool : Pool2) (tl : List Pool2) (r : Run2)
    (rs : List Run2) (hps : st.pools = pool :: tl) (hpp : pool.pages = r :: rs) :
    (drm_page_pool_shrink_v2 st).2.1 =
      { st with
        pools := tl ++ [{ pool with pages := rs, page_count := pool.page_count - 2 ^ pool.order }],
        nrManaged := st.nrManaged - 2 ^ pool.order,
        freed := st.freed ++ [(r, pool.order)] } := by
  unfold drm_page_pool_shrink_v2 drm_page_pool_remove_v2_at drm_page_pool_remove_v2
  simp [hps, getAt, hpp, updateAt, rotate2]

theorem mu2_shrink_decrease (st : Sys2) (hinv : inv2 st) (hpos : 0 < st.nrManaged) :
    mu2 (drm_page_pool_shrink_v2 st).2.1 < mu2 st := by
  obtain ⟨p0, hp0, hp0ne⟩ := exists_nonempty_pool st hinv hpos
  cases hps : st.pools with
  | nil => rw [hps] at hp0; simp at hp0
  | cons pool tl =>
    cases hpp : pool.pages with
    | nil =>
      rw [shrink_v2_empty_head st pool tl hps hpp]
      have hq : ∃ q ∈ tl, q.pages ≠ [] := by
        refine ⟨p0, ?_, hp0ne⟩
        rw [hps] at hp0
        rcases List.mem_cons.mp hp0 with rfl | h
        · exact absurd hpp hp0ne
        · exact h
      unfold mu2
      simp only [hps]
      rw [firstNE_append_empty pool hpp tl hq]
      have hlen : (tl ++ [pool]).length = tl.length + 1 := by simp
      rw [hlen]
      simp only [firstNE, hpp, if_true, List.length_cons]
      omega
    | cons r rs =>
      rw [shrink_v2_cons_head st pool tl r rs hps hpp]
      unfold mu2
      simp only [hps]
      set pool2 : Pool2 := { pool with pages := rs, page_count := pool.page_count - 2 ^ pool.order } with hpool2
      have hlen : (tl ++ [pool2]).length = tl.length + 1 := by simp
      rw [hlen]
      simp only [List.length_cons]
      have hfne := firstNE_le (tl ++ [pool2])
      rw [hlen] at hfne
      have hpow : (0 : Int) < 2 ^ pool.order := by positivity
      have htoNat : (st.nrManaged - 2 ^ pool.order).toNat ≤ st.nrManaged.toNat - 1 := by omega
      have hA : 1 ≤ st.nrManaged.toNat := by omega
      set A := st.nrManaged.toNat
      set B := tl.length + 1 + 1
      set a2 := (st.nrManaged - 2 ^ pool.order).toNat
      set f2 := firstNE (tl ++ [pool2])
      have hf2 : f2 ≤ B - 1 := by omega
      have hstep1 : a2 * B + f2 ≤ (A - 1) * B + f2 :=
        Nat.add_le_add_right (Nat.mul_le_mul_right B htoNat) _
      have hstep2 : (A - 1) * B + f2 ≤ (A - 1) * B + (B - 1) :=
        Nat.add_le_add_left hf2 _
      have hB : 1 ≤ B := by omega
      have hstep3 : (A - 1) * B + (B - 1) < A * B := by
        have hAB : (A - 1) * B + B = A * B := by
          have : A - 1 + 1 = A := by omega
          calc (A - 1) * B + B = (A - 1 + 1) * B := (Nat.succ_mul _ _).symm
          _ = A * B := by rw [this]
        omega
      calc a2 * B + f2 ≤ (A - 1) * B + (B - 1) := le_trans hstep1 hstep2
      _ < A * B := hstep3
      _ ≤ A * B + firstNE (pool :: tl) := Nat.le_add_right _ _

theorem inv2_add_link (idx : Nat) (r : Run2) (st : Sys2) (pool : Pool2)
    (hinv : inv2 st) (hg : getAt idx st.pools = some pool) :
    inv2 { st with
      mem := clearRange st.mem r.base (2 ^ pool.order),
      pools := updateAt idx
        (fun p => { p with pages := r :: p.pages, page_count := p.page_count + 2 ^ p.order })
        st.pools,
      nrManaged := st.nrManaged + 2 ^ pool.order } := by
  have hpc : pool.page_count = pool.pages.length * 2 ^ pool.order :=
    hinv.2 pool (getAt_mem idx st.pools pool hg)
  constructor
  · have hsum := sum_map_updateAt idx
      (fun p => { p with pages := r :: p.pages, page_count := p.page_count + 2 ^ p.order })
      Pool2.page_count st.pools pool hg
    have h1 := hinv.1
    unfold pooledPages2 at h1 ⊢
    simp only at hsum
    dsimp only
    rw [h1]
    have hpow2 : ((2 ^ pool.order : Nat) : Int) = (2 : Int) ^ pool.order := by push_cast; rfl
    rw [← hpow2]
    omega
  · intro p hmem
    rcases mem_updateAt idx _ st.pools p hmem with h' | ⟨x, hx, rfl⟩
    · exact hinv.2 p h'
    · rw [hg] at hx
      cases hx
      simp only [List.length_cons]
      rw [hpc, Nat.succ_mul]

theorem add_trim_terminates :
    ∀ (fuel : Nat) (st : Sys2), inv2 st → mu2 st < fuel →
      (drm_page_pool_add_trim fuel st).2.2 = true ∧
      inv2 (drm_page_pool_add_trim fuel st).1 ∧
      (drm_page_pool_add_trim fuel st).1.pagePoolSize = st.pagePoolSize ∧
      (st.pagePoolSize ≠ 0 →
        (drm_page_pool_add_trim fuel st).1.nrManaged ≤ (st.pagePoolSize : Int)) ∧
      (st.pagePoolSize = 0 →
        (drm_page_pool_add_trim fuel st).1 = st ∧ (drm_page_pool_add_trim fuel st).2.1 = 0) ∧
      ((st.pagePoolSize ≠ 0 ∧ st.nrManaged > (st.pagePoolSize : Int)) →
        1 ≤ (drm_page_pool_add_trim fuel st).2.1) := by
  intro fuel
  induction fuel with
  | zero => intro st hinv hmu; omega
  | succ f ih =>
    intro st hinv hmu
    by_cases hguard : st.pagePoolSize ≠ 0 ∧ st.nrManaged > (st.pagePoolSize : Int)
    · have hpos : 0 < st.nrManaged := by
        rcases hguard with ⟨hne, hgt⟩
        have h1 : (1 : Int) ≤ (st.pagePoolSize : Int) := by
          exact_mod_cast Nat.one_le_iff_ne_zero.mpr hne
        omega
      have hdec := mu2_shrink_decrease st hinv hpos
      obtain ⟨d0, _, _, _, hppres, _⟩ := shrink_v2_delta st
      have hinv1 : inv2 (drm_page_pool_shrink_v2 st).2.1 := inv2_shrink_v2 st hinv
      have ih1 := ih (drm_page_pool_shrink_v2 st).2.1 hinv1 (by omega)
      have hstep : drm_page_pool_add_trim (f + 1) st =
          ((drm_page_pool_add_trim f (drm_page_pool_shrink_v2 st).2.1).1,
           (drm_page_pool_add_trim f (drm_page_pool_shrink_v2 st).2.1).2.1 + 1,
           (drm_page_pool_add_trim f (drm_page_pool_shrink_v2 st).2.1).2.2) := by
        rw [drm_page_pool_add_trim, if_pos hguard]
      rw [hstep]
      dsimp only
      obtain ⟨hdone1, hinvf, hpps1, hle1, _, _⟩ := ih1
      refine ⟨hdone1, hinvf, by rw [hpps1, hppres], ?_, ?_, ?_⟩
      · intro hne
        have hx := hle1 (by rw [hppres]; exact hne)
        rw [hppres] at hx
        exact hx
      · intro h0
        exact absurd h0 hguard.1
      · intro _
        omega
    · have hstep : drm_page_pool_add_trim (f + 1) st = (st, 0, true) := by
        rw [drm_page_pool_add_trim, if_neg hguard]
      rw [hstep]
      dsimp only
      refine ⟨rfl, hinv, rfl, ?_, fun _ => ⟨rfl, rfl⟩, fun hgd => absurd hgd hguard⟩
      intro hne
      rw [not_and_or] at hguard
      rcases hguard with h | h
      · exact absurd hne (by simpa using h)
      · omega

/-- Claim C5: in the shared variant, whenever a drain
(`drm_page_pool_add`) pushes the pooled-page counter above the
`page_pool_size` tunable, `drm_page_pool_shrink` (the registry's
reclaim-one) is invoked synchronously in a loop until the counter is back
within the limit; when the tunable is 0 the synchronous trim is disabled and
no reclaim is triggered from the drain path. -/
theorem add_trim_limit (fuel idx : Nat) (r : Run2) (st : Sys2) (pool : Pool2)
    (hinv : inv2 st) (hg : getAt idx st.pools = some pool)
    (hfuel : (st.nrManaged + 2 ^ pool.order).toNat * (st.pools.length + 1)
      + st.pools.length < fuel) :
    (drm_page_pool_add_v2 fuel idx r st).2.2 = true ∧
    (st.pagePoolSize = 0 → (drm_page_pool_add_v2 fuel idx r st).2.1 = 0 ∧
      (drm_page_pool_add_v2 fuel idx r st).1.nrManaged = st.nrManaged + 2 ^ pool.order) ∧
    (st.pagePoolSize ≠ 0 →
      (drm_page_pool_add_v2 fuel idx r st).1.nrManaged ≤ (st.pagePoolSize : Int)) ∧
    (st.pagePoolSize ≠ 0 → st.nrManaged + 2 ^ pool.order > (st.pagePoolSize : Int) →
      1 ≤ (drm_page_pool_add_v2 fuel idx r st).2.1) := by
  have hlink := inv2_add_link idx r st pool hinv hg
  have hsteps : drm_page_pool_add_v2 fuel idx r st =
      drm_page_pool_add_trim fuel
        { st with
          mem := clearRange st.mem r.base (2 ^ pool.order),
          pools := updateAt idx
            (fun p => { p with pages := r :: p.pages, page_count := p.page_count + 2 ^ p.order })
            st.pools,
          nrManaged := st.nrManaged + 2 ^ pool.order } := by
    unfold drm_page_pool_add_v2
    rw [hg]
  set st1 : Sys2 :=
    { st with
      mem := clearRange st.mem r.base (2 ^ pool.order),
      pools := updateAt idx
        (fun p => { p with pages := r :: p.pages, page_count := p.page_count + 2 ^ p.order })
        st.pools,
      nrManaged := st.nrManaged + 2 ^ pool.order } with hst1
  have hmu : mu2 st1 < fuel := by
    unfold mu2
    have hlen : st1.pools.length = st.pools.length := by
      rw [hst1]
      exact length_updateAt idx _ st.pools
    have hfne := firstNE_le st1.pools
    rw [hlen] at hfne
    have hnr : st1.nrManaged = st.nrManaged + 2 ^ pool.order := rfl
    rw [hnr, hlen]
    omega
  obtain ⟨hdone, hinvf, hpps, hle, hzero, htrig⟩ := add_trim_terminates fuel st1 hlink hmu
  rw [hsteps]
  have hpps1 : st1.pagePoolSize = st.pagePoolSize := rfl
  refine ⟨hdone, ?_, ?_, ?_⟩
  · intro h0
    obtain ⟨hst, hn⟩ := hzero (by rw [hpps1]; exact h0)
    exact ⟨hn, by rw [hst]⟩
  · intro hne
    have := hle (by rw [hpps1]; exact hne)
    rw [hpps1] at this
    exact this
  · intro hne hgt
    exact htrig ⟨by rw [hpps1]; exact hne, by rw [hpps1]; exact hgt⟩

/-- State used to witness claim C5: one shared-variant order-0 pool holding
one run, `page_pool_size` 1, counter 1. -/
def c5_state : Sys2 :=
  { pools := [{ order := 0, pages := [{ id := 9, base := 0, highMem := false }],
                page_count := 1 }],
    nrManaged := 1, pagePoolSize := 1, mem := fun _ => 0, freed := [] }

/-- Claim C5, witness: adding a run to `c5_state` (pushing the counter to 2,
above the limit 1) completes its trim loop, triggers at least one shrink,
and leaves the counter within the limit. -/
theorem add_trim_limit_witness :
    (drm_page_pool_add_v2 10 0 { id := 10, base := 1, highMem := false } c5_state).2.2 = true ∧
    (drm_page_pool_add_v2 10 0 { id := 10, base := 1, highMem := false } c5_state).1.nrManaged
      ≤ (1 : Int) ∧
    1 ≤ (drm_page_pool_add_v2 10 0 { id := 10, base := 1, highMem := false } c5_state).2.1 := by
  have h := add_trim_limit 10 0 { id := 10, base := 1, highMem := false } c5_state
    { order := 0, pages := [{ id := 9, base := 0, highMem := false }], page_count := 1 }
    (by decide) rfl (by decide)
  exact ⟨h.1, h.2.2.1 (by decide), h.2.2.2 (by decide) (by decide)⟩

/-! Claim C6. -/

/-- State used to refute claim C6 on the run-counting variant: one pool
holding run 5. -/
def c6_state1 : Sys1 :=
  { pools := [{ order := 0, count := 1, items := [5] }], total := 1, freed := [] }

/-- State used to refute claim C6 on the shared variant: one order-0 pool
holding one run. -/
def c6_state2 : Sys2 :=
  { pools := [{ order := 0, pages := [{ id := 8, base := 4, highMem := false }],
                page_count := 1 }],
    nrManaged := 1, pagePoolSize := 0, mem := fun _ => 0, freed := [] }

/-- Claim C6, counterexample: in both reclaim-one implementations
(`drm_page_pool_shrink_one` and `drm_page_pool_shrink`), the free-callback
is invoked while the registry lock is held, so the property that every
callback runs with the registry lock released fails on a pool holding one
run. -/
theorem reclaim_callback_lock_counterexample :
    cbOutsideRegistryLock (drm_page_pool_shrink_one c6_state1).2.2 = false ∧
    cbOutsideRegistryLock (drm_page_pool_shrink_v2 c6_state2).2.2 = false := by
  decide

/-- Claim C6 (amended): in both reclaim-one implementations the free-callback
always runs with the registry lock held (depth exactly 1) and the bucket
spinlock released; the registry lock is released only after the bucket has
been rotated to the tail. -/
theorem reclaim_callback_lock_amended :
    (∀ st : Sys1, cbInsideRegistryLock (drm_page_pool_shrink_one st).2.2 = true) ∧
    (∀ st : Sys2, cbInsideRegistryLock (drm_page_pool_shrink_v2 st).2.2 = true) := by
  constructor
  · intro st
    unfold drm_page_pool_shrink_one
    cases hps : st.pools with
    | nil => rfl
    | cons p tl =>
      cases hfetch : drm_page_pool_fetch_v1 0 st with
      | mk res st1 =>
        cases res <;> rfl
  · intro st
    unfold drm_page_pool_shrink_v2
    cases hps : st.pools with
    | nil => rfl
    | cons p tl =>
      cases hrem : drm_page_pool_remove_v2_at 0 st with
      | mk res st1 =>
        cases res with
        | none => rfl
        | some ro => rfl

/-! Dynamic (ION-style) page pool: the four sub-lists, the shrink path, and
the deferred-clean worker. -/

/-- Page types tracked by the dynamic pool (the POOL_* enum): clean lowmem,
clean highmem, dirty-deferred lowmem, dirty-deferred highmem. -/
inductive DynIdx where
  | lowpage : DynIdx
  | highpage : DynIdx
  | lowdeferred : DynIdx
  | highdeferred : DynIdx
deriving DecidableEq

/-- Dynamic pool: one allocation order, and per page type a count and a list
of runs (reusing `Run2` as the run representation: id, base page frame,
PageHighMem flag). -/
structure DynPool where
  order : Nat
  counts : DynIdx → Nat
  items : DynIdx → List Run2

/-- Dynamic-pool system state: the pool, the contents of every base page,
the runs released through `dynamic_page_pool_free_pages`, and a flag
recording that undefined behaviour was reached (NULL free, read of an
indeterminate array slot, or an out-of-bounds array write). -/
structure DynSt where
  pool : DynPool
  mem : Nat → Nat
  freedRuns : List Run2
  crashed : Bool

/-- Model of `dynamic_page_pool_remove`: WARN and return NULL when the
count of the requested type is zero, else pop `list_first_entry`. -/
def dynamic_page_pool_remove (idx : DynIdx) (p : DynPool) : Option Run2 × DynPool :=
  if p.counts idx = 0 then (none, p)
  else
    match p.items idx with
    | [] => (none, p)
    | r :: tl =>
      (some r,
       { p with
         counts := fun i => if i = idx then p.counts idx - 1 else p.counts i,
         items := fun i => if i = idx then tl else p.items i })

/-- Model of `dynamic_page_pool_total`: low pages plus low deferred, plus the
high lists when `high` is allowed, shifted by the order. -/
def dynamic_page_pool_total (p : DynPool) (high : Bool) : Nat :=
  ((p.counts .lowpage + p.counts .lowdeferred) +
    (if high then p.counts .highpage + p.counts .highdeferred else 0)) * 2 ^ p.order

/-- Loop of `dynamic_page_pool_do_shrink`: while `freed < nr_to_scan`,
select a list in the source's order — low deferred first, then (when high
pages are allowed) the branch guarded by the high-deferred count, which the
source makes remove from POOL_HIGHPAGE (the clean high list), then low
clean, then high clean — free the removed page and accumulate
`1 << order`.  A remove that returns NULL is passed to `__free_pages`,
modelled as a crash. -/
def dynamic_page_pool_do_shrink_loop (high : Bool) (nrToScan : Nat) :
    Nat → Nat → DynSt → Nat × DynSt
  | 0, freed, st => (freed, st)
  | fuel + 1, freed, st =>
    if freed < nrToScan then
      let sel : Option DynIdx :=
        if st.pool.counts .lowdeferred ≠ 0 then some .lowdeferred
        else if high ∧ st.pool.counts .highdeferred ≠ 0 then some .highpage
        else if st.pool.counts .lowpage ≠ 0 then some .lowpage
        else if high ∧ st.pool.counts .highpage ≠ 0 then some .highpage
        else none
      match sel with
      | none => (freed, st)
      | some idx =>
        match dynamic_page_pool_remove idx st.pool with
        | (some r, p1) =>
          dynamic_page_pool_do_shrink_loop high nrToScan fuel (freed + 2 ^ st.pool.order)
            { st with pool := p1, freedRuns := st.freedRuns ++ [r] }
        | (none, p1) => (freed, { st with pool := p1, crashed := true })
    else (freed, st)

/-- Model of `dynamic_page_pool_do_shrink`: compute the `high` flag from
kswapd / gfp highmem, return the total when `nr_to_scan` is 0, otherwise
run the freeing loop. -/
def dynamic_page_pool_do_shrink (kswapd gfpHighmem : Bool) (nrToScan : Nat)
    (st : DynSt) : Nat × DynSt :=
  let high := if kswapd then true else gfpHighmem
  if nrToScan = 0 then (dynamic_page_pool_total st.pool high, st)
  else dynamic_page_pool_do_shrink_loop high nrToScan (nrToScan + 1) 0 st

/-- Model of `dynamic_page_pool_add_clean`: `list_add_tail` the page on the
high or low clean list according to `PageHighMem`. -/
def dynamic_page_pool_add_clean (st : DynSt) (page : Run2) : DynSt :=
  let idx := if page.highMem then DynIdx.highpage else DynIdx.lowpage
  { st with
    pool := { st.pool with
      counts := fun i => if i = idx then st.pool.counts idx + 1 else st.pool.counts i,
      items := fun i => if i = idx then st.pool.items idx ++ [page] else st.pool.items i } }

/-- Model of `dynamic_page_pool_free_pages`: release the run to the page
allocator. -/
def dynamic_page_pool_free_pages (st : DynSt) (page : Run2) : DynSt :=
  { st with freedRuns := st.freedRuns ++ [page] }

/-- Model of `dynamic_page_pool_zero_and_add`: vmap the batch, memset
`PAGE_SIZE * num` bytes (zeroing the head base page of each batch entry,
since vmap maps one page per array slot), vunmap, and move every page to
the clean list; on vmap failure free the pages instead.  A batch slot that
was never written (an indeterminate `pages[]` entry reaching vmap) is
undefined behaviour, modelled as a crash. -/
def dynamic_page_pool_zero_and_add (vmapOk : Bool) (batch : List (Option Run2))
    (st : DynSt) : DynSt :=
  if batch.any (fun x => x.isNone) then { st with crashed := true }
  else
    let runs := batch.filterMap id
    if vmapOk = false then runs.foldl dynamic_page_pool_free_pages st
    else
      let st1 := { st with
        mem := runs.foldl (fun m r => fun a => if a = r.base then 0 else m a) st.mem }
      runs.foldl dynamic_page_pool_add_clean st1

/-- Loop of `dynamic_page_pool_clean_pages`: while the count of the chosen
list is nonzero, store the removed page at the current batch index and
flush through `dynamic_page_pool_zero_and_add` at 32; flush the remainder
at the end.  The batch is threaded as the list of slots written so far; the
source's batch index `p` is declared without an initializer, so the loop
starts from the caller-supplied garbage prefix, and an index at or past the
array size is an out-of-bounds write, modelled as a crash. -/
def dynamic_page_pool_clean_pages_loop (vmapOk : Bool) (idx : DynIdx) :
    Nat → List (Option Run2) → DynSt → DynSt
  | 0, _, st => st
  | fuel + 1, buf, st =>
    if st.crashed then st
    else if st.pool.counts idx ≠ 0 then
      if 32 ≤ buf.length then { st with crashed := true }
      else
        match dynamic_page_pool_remove idx st.pool with
        | (res, p1) =>
          if (buf ++ [res]).length = 32 then
            dynamic_page_pool_clean_pages_loop vmapOk idx fuel []
              (dynamic_page_pool_zero_and_add vmapOk (buf ++ [res]) { st with pool := p1 })
          else
            dynamic_page_pool_clean_pages_loop vmapOk idx fuel (buf ++ [res])
              { st with pool := p1 }
    else if buf.length ≠ 0 then dynamic_page_pool_zero_and_add vmapOk buf st
    else st

/-- Model of `dynamic_page_pool_clean_pages`: the batch index `p` is an
uninitialized local, modelled by `g` indeterminate slots already occupying
the batch when the loop starts (`g = 0` is the value the code evidently
intends). -/
def dynamic_page_pool_clean_pages (vmapOk : Bool) (g : Nat) (idx : DynIdx)
    (st : DynSt) : DynSt :=
  dynamic_page_pool_clean_pages_loop vmapOk idx (st.pool.counts idx + 1)
    (List.replicate g none) st

/-- Pass loop of `dynamic_page_pool_clean`: up to four passes, each cleaning
the high-deferred list if nonempty, else the low-deferred list.  Each
invocation of `dynamic_page_pool_clean_pages` has its own uninitialized
batch index, taken from the head of `gs`. -/
def dynamic_page_pool_clean_passes (vmapOk : Bool) :
    Nat → List Nat → DynSt → DynSt
  | 0, _, st => st
  | n + 1, gs, st =>
    if st.pool.counts .highdeferred ≠ 0 then
      dynamic_page_pool_clean_passes vmapOk n (gs.drop 1)
        (dynamic_page_pool_clean_pages vmapOk (gs.headD 0) .highdeferred st)
    else if st.pool.counts .lowdeferred ≠ 0 then
      dynamic_page_pool_clean_passes vmapOk n (gs.drop 1)
        (dynamic_page_pool_clean_pages vmapOk (gs.headD 0) .lowdeferred st)
    else dynamic_page_pool_clean_passes vmapOk n gs st

/-- Model of `dynamic_page_pool_clean`: four passes under the pool mutex. -/
def dynamic_page_pool_clean (vmapOk : Bool) (gs : List Nat) (st : DynSt) : DynSt :=
  dynamic_page_pool_clean_passes vmapOk 4 gs st

/-! Claim C7. -/

/-- State exhibiting the C7 bug: order-0 dynamic pool with one dirty-deferred
high page (id 1) and one clean high page (id 2). -/
def c7_pool : DynPool :=
  { order := 0,
    counts := fun i => match i with
      | .highdeferred => 1
      | .highpage => 1
      | _ => 0,
    items := fun i => match i with
      | .highdeferred => [{ id := 1, base := 100, highMem := true }]
      | .highpage => [{ id := 2, base := 200, highMem := true }]
      | _ => [] }

/-- System state around `c7_pool`. -/
def c7_state : DynSt :=
  { pool := c7_pool, mem := fun _ => 0, freedRuns := [], crashed := false }

/-- Claim C7, evaluation at the failing input: shrinking one page from
`c7_state` under kswapd frees the clean high page (id 2) and leaves the
dirty-deferred high page in the pool — the branch guarded by the
high-deferred count removes from POOL_HIGHPAGE — contradicting the claimed
preference for dirty-deferred pages over clean ones. -/
theorem dyn_shrink_pref_bug :
    (dynamic_page_pool_do_shrink true false 1 c7_state).1 = 1 ∧
    (dynamic_page_pool_do_shrink true false 1 c7_state).2.freedRuns
      = [{ id := 2, base := 200, highMem := true }] ∧
    (dynamic_page_pool_do_shrink true false 1 c7_state).2.pool.counts DynIdx.highdeferred = 1 ∧
    (dynamic_page_pool_do_shrink true false 1 c7_state).2.pool.counts DynIdx.highpage = 0 := by
  decide

/-! Claim C8. -/

/-- State exhibiting the C8 bug: order-0 dynamic pool with one dirty-deferred
low page whose contents read 7. -/
def c8_pool : DynPool :=
  { order := 0,
    counts := fun i => match i with
      | .lowdeferred => 1
      | _ => 0,
    items := fun i => match i with
      | .lowdeferred => [{ id := 1, base := 50, highMem := false }]
      | _ => [] }

/-- System state around `c8_pool`. -/
def c8_state : DynSt :=
  { pool := c8_pool, mem := fun _ => 7, freedRuns := [], crashed := false }

/-- Claim C8, evaluation at the failing input: running the deferred-clean
worker on `c8_state` with the uninitialized batch index holding 1 (any
nonzero garbage) reaches undefined behaviour — the batch passed to vmap
contains an indeterminate slot — and the drained run ends up neither on the
clean list nor zeroed (its page still reads 7). -/
theorem dyn_clean_uninit_bug :
    (dynamic_page_pool_clean true [1, 0, 0, 0] c8_state).crashed = true ∧
    (dynamic_page_pool_clean true [1, 0, 0, 0] c8_state).pool.counts DynIdx.lowpage = 0 ∧
    (dynamic_page_pool_clean true [1, 0, 0, 0] c8_state).pool.counts DynIdx.lowdeferred = 0 ∧
    (dynamic_page_pool_clean true [1, 0, 0, 0] c8_state).mem 50 = 7 ∧ (7 : Nat) ≠ 0 := by
  decide

/-! Model of `ttm_pool_alloc` (drivers/gpu/drm/ttm/ttm_pool.c). -/

/-- Run handed out by `ttm_pool_alloc_page` or fetched from a pool type:
identity and the `PageHighMem` flag of its head page. -/
structure AllocRun where
  id : Nat
  highMem : Bool
deriving DecidableEq

/-- TTM caching classes. -/
inductive TtmCaching where
  | ttm_cached : TtmCaching
  | ttm_write_combined : TtmCaching
  | ttm_uncached : TtmCaching
deriving DecidableEq

/-- Model of `ttm_pool_select_type` on x86 builds, reduced to whether a
`drm_page_pool` row exists for this pool configuration and caching class:
with `use_dma_alloc` the pool's own row always exists; otherwise the global
write-combined or uncached row (the dma32 flag only selects between two
rows with identical semantics), and no row for `ttm_cached`. -/
def ttm_pool_select_some (useDmaAlloc : Bool) (caching : TtmCaching) : Bool :=
  useDmaAlloc ||
    (match caching with
     | .ttm_write_combined => true
     | .ttm_uncached => true
     | .ttm_cached => false)

/-- The selected pool-type row during one `ttm_pool_alloc` call: the runs
pooled per order, and the `nr_managed_pages` counter that
`drm_page_pool_remove` decrements on every hit. -/
structure TtmBuckets where
  row : Nat → List AllocRun
  nrManaged : Int

/-- Model of `drm_page_pool_remove` on the row: pop the head run of the
given order and subtract `1 << order` from the global counter. -/
def ttm_bucket_fetch (order : Nat) (st : TtmBuckets) : Option AllocRun × TtmBuckets :=
  match st.row order with
  | [] => (none, st)
  | r :: tl =>
    (some r,
     { row := fun o => if o = order then tl else st.row o,
       nrManaged := st.nrManaged - 2 ^ order })

/-- Environment of one `ttm_pool_alloc` call: the results of the successive
`ttm_pool_alloc_page` calls (`none` is allocation failure), the results of
the successive batched `set_pages_array_wc` / `set_pages_array_uc` calls
(0 is success; failures are negative errnos), and the results of the
successive `dma_map_page` calls.  An exhausted stream models further
allocation failures and caching / mapping successes. -/
structure TtmEnv where
  allocResults : List (Option AllocRun)
  cachingResults : List Int
  mapOk : List Bool

/-- Consume one `ttm_pool_alloc_page` result. -/
def ttm_env_alloc_page (env : TtmEnv) : Option AllocRun × TtmEnv :=
  match env.allocResults with
  | [] => (none, env)
  | a :: tl => (a, { env with allocResults := tl })

/-- Model of `ttm_pool_apply_caching` on a range of `num` pages: returns 0
without touching the hardware when the range is empty or the target class
is `ttm_cached`; otherwise the next `set_pages_array` result. -/
def ttm_pool_apply_caching (isCached : Bool) (num : Nat) (env : TtmEnv) : Int × TtmEnv :=
  if num = 0 then (0, env)
  else if isCached then (0, env)
  else
    match env.cachingResults with
    | [] => (0, env)
    | c :: tl => (c, { env with cachingResults := tl })

/-- Model of `ttm_pool_map`: with `use_dma_alloc` the DMA address is read
from the page metadata (no failure); otherwise the next `dma_map_page`
result. -/
def ttm_pool_map_call (useDmaAlloc : Bool) (env : TtmEnv) : Bool × TtmEnv :=
  if useDmaAlloc then (true, env)
  else
    match env.mapOk with
    | [] => (true, env)
    | b :: tl => (b, { env with mapOk := tl })

/-- Events of one `ttm_pool_alloc` call: the start of a fresh iteration of
the for loop (after a deposit, at the given order and remaining count), a
consult of the pool row and allocator at a given order and remaining count
(fallback retries included), a pool hit, a fresh allocation, an allocator
failure, and a `ttm_pool_free_page` release. -/
inductive AllocEv where
  | startIter : Nat → Nat → AllocEv
  | tryAt : Nat → Nat → AllocEv
  | hit : AllocRun → Nat → AllocEv
  | fresh : AllocRun → Nat → AllocEv
  | allocFail : Nat → AllocEv
  | freeP : AllocRun → Nat → AllocEv
deriving DecidableEq

/-- Outcome of `ttm_pool_alloc`: success with the deposited runs (each with
the order it was obtained at), or a negative error code; both carry the
final bucket state and the event list. -/
inductive AllocOut where
  | ok : List (AllocRun × Nat) → TtmBuckets → List AllocEv → AllocOut
  | err : Int → TtmBuckets → List AllocEv → AllocOut

/-- Prepend events to an outcome. -/
def AllocOut.withEv (pre : List AllocEv) : AllocOut → AllocOut
  | .ok d s e => .ok d s (pre ++ e)
  | .err c s e => .err c s (pre ++ e)

/-- Whether the outcome is the success return 0. -/
def AllocOut.isOk : AllocOut → Bool
  | .ok _ _ _ => true
  | .err _ _ _ => false

/-- Final `nr_managed_pages` of the outcome. -/
def AllocOut.counter : AllocOut → Int
  | .ok _ s _ => s.nrManaged
  | .err _ s _ => s.nrManaged

/-- Events of the outcome. -/
def AllocOut.events : AllocOut → List AllocEv
  | .ok _ _ e => e
  | .err _ _ e => e

/-- Return code of the outcome (0 on success). -/
def AllocOut.retCode : AllocOut → Int
  | .ok _ _ _ => 0
  | .err c _ _ => c

/-- Base pages removed from pool rows, per the hit events. -/
def hitPages : List AllocEv → Nat
  | [] => 0
  | .hit _ o :: tl => 2 ^ o + hitPages tl
  | _ :: tl => hitPages tl

/-- Runs acquired (pool hits and fresh allocations), in order. -/
def acquiredEv : List AllocEv → List (AllocRun × Nat)
  | [] => []
  | .hit r o :: tl => (r, o) :: acquiredEv tl
  | .fresh r o :: tl => (r, o) :: acquiredEv tl
  | _ :: tl => acquiredEv tl

/-- Runs released through `ttm_pool_free_page`, in order. -/
def freedEv : List AllocEv → List (AllocRun × Nat)
  | [] => []
  | .freeP r o :: tl => (r, o) :: freedEv tl
  | _ :: tl => freedEv tl

/-- Fresh-iteration start events, in order. -/
def startEvents : List AllocEv → List (Nat × Nat)
  | [] => []
  | .startIter o n :: tl => (o, n) :: startEvents tl
  | _ :: tl => startEvents tl

/-- Consult events, in order. -/
def tryEvents : List AllocEv → List (Nat × Nat)
  | [] => []
  | .tryAt o n :: tl => (o, n) :: tryEvents tl
  | _ :: tl => tryEvents tl

/-- Whether any allocator failure occurred. -/
def hasAllocFail : List AllocEv → Bool
  | [] => false
  | .allocFail _ :: _ => true
  | _ :: tl => hasAllocFail tl

/-- Free events for a deposited-run list (the `error_free_all` walk). -/
def freeEvents (l : List (AllocRun × Nat)) : List AllocEv :=
  l.map fun x => .freeP x.1 x.2

/-- Base pages of a deposited-run list. -/
def pagesOfDepos (l : List (AllocRun × Nat)) : Nat := (l.map fun x => 2 ^ x.2).sum

/-- Static configuration of one `ttm_pool_alloc` call. -/
structure LoopCfg where
  hasBucket : Bool
  isCached : Bool
  hasDma : Bool
  useDmaAlloc : Bool

/-- Mutable arguments of the allocation loop: remaining page count, current
order, bucket state, environment, deposited runs, pages-pointer offset
(`pages - tt->pages`) and caching-pointer offset (`caching - tt->pages`). -/
structure LoopArgs where
  numPages : Nat
  order : Nat
  st : TtmBuckets
  env : TtmEnv
  depos : List (AllocRun × Nat)
  dp : Nat
  cpos : Nat

/-- Steps of `ttm_pool_alloc` after a run was acquired at the current order:
the apply-caching barrier when needed (on failure, `error_free_page` frees
the acquired run and `error_free_all` the deposited ones), the DMA mapping
when requested (failure -EFAULT, same error path), then the deposit of the
run's pages and the for-loop step `order = min(order, __fls(num_pages))`.
Returns either an error outcome (with the events of this phase) or the next
loop arguments plus the phase's events. -/
def ttm_pool_alloc_mapdep (cfg : LoopCfg) (r : AllocRun) (a : LoopArgs) :
    AllocOut ⊕ (LoopArgs × List AllocEv) :=
  if (if cfg.hasDma then ttm_pool_map_call cfg.useDmaAlloc a.env else (true, a.env)).1 = false then
    Sum.inl (.err (-14) a.st (.freeP r a.order :: freeEvents a.depos))
  else
    Sum.inr
      ({ numPages := a.numPages - 2 ^ a.order,
         order := min a.order (fls (a.numPages - 2 ^ a.order)),
         st := a.st,
         env := (if cfg.hasDma then ttm_pool_map_call cfg.useDmaAlloc a.env else (true, a.env)).2,
         depos := a.depos ++ [(r, a.order)], dp := a.dp + 2 ^ a.order, cpos := a.cpos },
       if a.numPages - 2 ^ a.order = 0 then []
       else [.startIter (min a.order (fls (a.numPages - 2 ^ a.order))) (a.numPages - 2 ^ a.order)])

/-- Steps of `ttm_pool_alloc` after a run was acquired at the current order,
continued: when `apply_caching` is set, run the apply-caching barrier first
(on failure, `error_free_page` frees the acquired run and `error_free_all`
the deposited ones) and advance the caching pointer to `pages + (1 <<
order)`, then hand over to the mapping and deposit steps. -/
def ttm_pool_alloc_acquired (cfg : LoopCfg) (applyCaching : Bool) (r : AllocRun)
    (a : LoopArgs) : AllocOut ⊕ (LoopArgs × List AllocEv) :=
  match applyCaching with
  | false => ttm_pool_alloc_mapdep cfg r a
  | true =>
    let cap := ttm_pool_apply_caching cfg.isCached (a.dp - a.cpos) a.env
    if cap.1 ≠ 0 then
      Sum.inl (.err cap.1 a.st (.freeP r a.order :: freeEvents a.depos))
    else ttm_pool_alloc_mapdep cfg r { a with env := cap.2, cpos := a.dp + 2 ^ a.order }

/-- The for loop of `ttm_pool_alloc`, by fuel (each iteration either deposits
at least one page or decrements the order, so `numPages + order + 1` fuel
suffices; the fuel-exhausted outcome `err 1` is unreachable under that
bound).  Each iteration consults the selected pool row, then
`ttm_pool_alloc_page`; on double failure it retries at `order - 1` or
returns -ENOMEM from order 0, rolling back all deposited runs through
`ttm_pool_free_page`.  The final `ttm_pool_apply_caching` failure also rolls
back everything. -/
def ttm_pool_alloc_loop (cfg : LoopCfg) : Nat → LoopArgs → AllocOut
  | 0, a => .err 1 a.st []
  | fuel + 1, a =>
    if a.numPages = 0 then
      let fin := ttm_pool_apply_caching cfg.isCached (a.dp - a.cpos) a.env
      if fin.1 = 0 then .ok a.depos a.st []
      else .err fin.1 a.st (freeEvents a.depos)
    else
      let fetch := if cfg.hasBucket then ttm_bucket_fetch a.order a.st else (none, a.st)
      match fetch.1 with
      | some r =>
        (match ttm_pool_alloc_acquired cfg true r { a with st := fetch.2 } with
         | Sum.inl out => out.withEv [.tryAt a.order a.numPages, .hit r a.order]
         | Sum.inr (a2, phaseEv) =>
           (ttm_pool_alloc_loop cfg fuel a2).withEv
             ([.tryAt a.order a.numPages, .hit r a.order] ++ phaseEv))
      | none =>
        let alloc := ttm_env_alloc_page a.env
        match alloc.1 with
        | some r =>
          (match ttm_pool_alloc_acquired cfg r.highMem r { a with env := alloc.2 } with
           | Sum.inl out => out.withEv [.tryAt a.order a.numPages, .fresh r a.order]
           | Sum.inr (a2, phaseEv) =>
             (ttm_pool_alloc_loop cfg fuel a2).withEv
               ([.tryAt a.order a.numPages, .fresh r a.order] ++ phaseEv))
        | none =>
          if a.order ≠ 0 then
            (ttm_pool_alloc_loop cfg fuel
              { a with env := alloc.2, order := min (a.order - 1) (fls a.numPages) }).withEv
              [.tryAt a.order a.numPages, .allocFail a.order]
          else
            .err (-12) a.st
              ([.tryAt a.order a.numPages, .allocFail a.order] ++ freeEvents a.depos)

/-- Model of `ttm_pool_alloc`: build the configuration from the pool flags
and the tt's caching, start at `order = min(MAX_ORDER - 1, __fls(N))`, and
run the loop with sufficient fuel.  `useDma32` only selects between global
rows of identical semantics and is otherwise unused. -/
def ttm_pool_alloc (useDmaAlloc useDma32 : Bool) (caching : TtmCaching) (hasDma : Bool)
    (numPages : Nat) (st : TtmBuckets) (env : TtmEnv) : AllocOut :=
  let cfg : LoopCfg :=
    { hasBucket := ttm_pool_select_some useDmaAlloc caching,
      isCached := caching = TtmCaching.ttm_cached,
      hasDma := hasDma,
      useDmaAlloc := useDmaAlloc }
  let ord0 := min (MAX_ORDER - 1) (fls numPages)
  (ttm_pool_alloc_loop cfg (numPages + MAX_ORDER + 1)
    { numPages := numPages, order := ord0, st := st, env := env,
      depos := [], dp := 0, cpos := 0 }).withEv
    (if numPages = 0 then [] else [.startIter ord0 numPages])

theorem hitPages_append : ∀ l1 l2 : List AllocEv, hitPages (l1 ++ l2) = hitPages l1 + hitPages l2 := by
  intro l1 l2
  induction l1 with
  | nil => simp [hitPages]
  | cons e tl ih => cases e <;> simp [hitPages, ih] <;> omega

theorem freedEv_append : ∀ l1 l2 : List AllocEv, freedEv (l1 ++ l2) = freedEv l1 ++ freedEv l2 := by
  intro l1 l2
  induction l1 with
  | nil => simp [freedEv]
  | cons e tl ih => cases e <;> simp [freedEv, ih]

theorem acquiredEv_append :
    ∀ l1 l2 : List AllocEv, acquiredEv (l1 ++ l2) = acquiredEv l1 ++ acquiredEv l2 := by
  intro l1 l2
  induction l1 with
  | nil => simp [acquiredEv]
  | cons e tl ih => cases e <;> simp [acquiredEv, ih]

theorem startEvents_append :
    ∀ l1 l2 : List AllocEv, startEvents (l1 ++ l2) = startEvents l1 ++ startEvents l2 := by
  intro l1 l2
  induction l1 with
  | nil => simp [startEvents]
  | cons e tl ih => cases e <;> simp [startEvents, ih]

theorem tryEvents_append :
    ∀ l1 l2 : List AllocEv, tryEvents (l1 ++ l2) = tryEvents l1 ++ tryEvents l2 := by
  intro l1 l2
  induction l1 with
  | nil => simp [tryEvents]
  | cons e tl ih => cases e <;> simp [tryEvents, ih]

theorem hasAllocFail_append :
    ∀ l1 l2 : List AllocEv, hasAllocFail (l1 ++ l2) = (hasAllocFail l1 || hasAllocFail l2) := by
  intro l1 l2
  induction l1 with
  | nil => simp [hasAllocFail]
  | cons e tl ih => cases e <;> simp [hasAllocFail, ih]

theorem hitPages_freeEvents : ∀ l : List (AllocRun × Nat), hitPages (freeEvents l) = 0 := by
  intro l
  induction l with
  | nil => rfl
  | cons x tl ih => simp [freeEvents, hitPages] at ih ⊢; exact ih

theorem freedEv_freeEvents : ∀ l : List (AllocRun × Nat), freedEv (freeEvents l) = l := by
  intro l
  induction l with
  | nil => rfl
  | cons x tl ih => simp [freeEvents, freedEv] at ih ⊢; exact ih

theorem acquiredEv_freeEvents : ∀ l : List (AllocRun × Nat), acquiredEv (freeEvents l) = [] := by
  intro l
  induction l with
  | nil => rfl
  | cons x tl ih => simp [freeEvents, acquiredEv] at ih ⊢; exact ih

theorem startEvents_freeEvents : ∀ l : List (AllocRun × Nat), startEvents (freeEvents l) = [] := by
  intro l
  induction l with
  | nil => rfl
  | cons x tl ih => simp [freeEvents, startEvents] at ih ⊢; exact ih

theorem tryEvents_freeEvents : ∀ l : List (AllocRun × Nat), tryEvents (freeEvents l) = [] := by
  intro l
  induction l with
  | nil => rfl
  | cons x tl ih => simp [freeEvents, tryEvents] at ih ⊢; exact ih

theorem hasAllocFail_freeEvents :
    ∀ l : List (AllocRun × Nat), hasAllocFail (freeEvents l) = false := by
  intro l
  induction l with
  | nil => rfl
  | cons x tl ih => simp [freeEvents, hasAllocFail] at ih ⊢; exact ih

theorem ttm_pool_apply_caching_spec (isC : Bool) (num : Nat) (env : TtmEnv)
    (hc : ∀ c ∈ env.cachingResults, c ≤ 0) :
    (ttm_pool_apply_caching isC num env).1 ≤ 0 ∧
    (∀ c ∈ (ttm_pool_apply_caching isC num env).2.cachingResults, c ≤ 0) ∧
    (ttm_pool_apply_caching isC num env).2.allocResults = env.allocResults ∧
    (ttm_pool_apply_caching isC num env).2.mapOk = env.mapOk := by
  unfold ttm_pool_apply_caching
  split
  · exact ⟨le_refl 0, hc, rfl, rfl⟩
  · split
    · exact ⟨le_refl 0, hc, rfl, rfl⟩
    · cases henv : env.cachingResults with
      | nil =>
        refine ⟨le_refl 0, ?_, rfl, rfl⟩
        intro c hcc
        rw [henv] at hcc
        simp at hcc
      | cons c tl =>
        refine ⟨hc c (by rw [henv]; exact List.mem_cons_self _ _), ?_, rfl, rfl⟩
        intro c2 hc2
        exact hc c2 (by rw [henv]; exact List.mem_cons_of_mem _ hc2)

theorem ttm_pool_map_call_spec (useDmaAlloc : Bool) (env : TtmEnv) :
    (ttm_pool_map_call useDmaAlloc env).2.cachingResults = env.cachingResults ∧
    (ttm_pool_map_call useDmaAlloc env).2.allocResults = env.allocResults := by
  unfold ttm_pool_map_call
  split
  · exact ⟨rfl, rfl⟩
  · cases env.mapOk <;> exact ⟨rfl, rfl⟩

theorem ttm_env_alloc_page_spec (env : TtmEnv) :
    (ttm_env_alloc_page env).2.cachingResults = env.cachingResults := by
  unfold ttm_env_alloc_page
  cases env.allocResults <;> rfl

theorem ttm_bucket_fetch_spec (order : Nat) (st : TtmBuckets) :
    ((ttm_bucket_fetch order st).1 = none → (ttm_bucket_fetch order st).2 = st) ∧
    (∀ r, (ttm_bucket_fetch order st).1 = some r →
      (ttm_bucket_fetch order st).2.nrManaged = st.nrManaged - 2 ^ order) := by
  unfold ttm_bucket_fetch
  cases st.row order with
  | nil => exact ⟨fun _ => rfl, fun r hr => by simp at hr⟩
  | cons r tl => exact ⟨fun h => by simp at h, fun r2 _ => rfl⟩

theorem ttm_pool_alloc_mapdep_spec (cfg : LoopCfg) (r : AllocRun) (a : LoopArgs)
    (hc : ∀ c ∈ a.env.cachingResults, c ≤ 0) :
    (∀ out, ttm_pool_alloc_mapdep cfg r a = Sum.inl out →
      ∃ c, out = AllocOut.err c a.st (.freeP r a.order :: freeEvents a.depos) ∧ c < 0) ∧
    (∀ a2 pe, ttm_pool_alloc_mapdep cfg r a = Sum.inr (a2, pe) →
      a2.st = a.st ∧ a2.depos = a.depos ++ [(r, a.order)] ∧
      a2.numPages = a.numPages - 2 ^ a.order ∧
      a2.order = min a.order (fls a2.numPages) ∧
      hitPages pe = 0 ∧ freedEv pe = [] ∧ acquiredEv pe = [] ∧
      hasAllocFail pe = false ∧ tryEvents pe = [] ∧
      startEvents pe = (if a2.numPages = 0 then [] else [(a2.order, a2.numPages)]) ∧
      (∀ c ∈ a2.env.cachingResults, c ≤ 0)) := by
  have hmap := ttm_pool_map_call_spec cfg.useDmaAlloc a.env
  constructor
  · intro out hout
    unfold ttm_pool_alloc_mapdep at hout
    by_cases hmp : (if cfg.hasDma then ttm_pool_map_call cfg.useDmaAlloc a.env
        else (true, a.env)).1 = false
    · rw [if_pos hmp] at hout
      cases hout
      exact ⟨-14, rfl, by omega⟩
    · rw [if_neg hmp] at hout
      cases hout
  · intro a2 pe hout
    unfold ttm_pool_alloc_mapdep at hout
    by_cases hmp : (if cfg.hasDma then ttm_pool_map_call cfg.useDmaAlloc a.env
        else (true, a.env)).1 = false
    · rw [if_pos hmp] at hout
      cases hout
    · rw [if_neg hmp] at hout
      simp only [Sum.inr.injEq, Prod.mk.injEq] at hout
      obtain ⟨ha2, hpe⟩ := hout
      subst ha2
      subst hpe
      refine ⟨rfl, rfl, rfl, rfl, ?_, ?_, ?_, ?_, ?_, ?_, ?_⟩
      · split <;> rfl
      · split <;> rfl
      · split <;> rfl
      · split <;> rfl
      · split <;> rfl
      · split
        · rename_i hz
          simp [startEvents]
        · rename_i hz
          simp [startEvents]
      · cases hdma : cfg.hasDma
        · simp only [hdma, Bool.false_eq_true, if_false]
          exact hc
        · simp only [hdma, if_true]
          rw [hmap.1]
          exact hc

theorem ttm_pool_alloc_acquired_spec (cfg : LoopCfg) (applyCaching : Bool) (r : AllocRun)
    (a : LoopArgs) (hc : ∀ c ∈ a.env.cachingResults, c ≤ 0) :
    (∀ out, ttm_pool_alloc_acquired cfg applyCaching r a = Sum.inl out →
      ∃ c, out = AllocOut.err c a.st (.freeP r a.order :: freeEvents a.depos) ∧ c < 0) ∧
    (∀ a2 pe, ttm_pool_alloc_acquired cfg applyCaching r a = Sum.inr (a2, pe) →
      a2.st = a.st ∧ a2.depos = a.depos ++ [(r, a.order)] ∧
      a2.numPages = a.numPages - 2 ^ a.order ∧
      a2.order = min a.order (fls a2.numPages) ∧
      hitPages pe = 0 ∧ freedEv pe = [] ∧ acquiredEv pe = [] ∧
      hasAllocFail pe = false ∧ tryEvents pe = [] ∧
      startEvents pe = (if a2.numPages = 0 then [] else [(a2.order, a2.numPages)]) ∧
      (∀ c ∈ a2.env.cachingResults, c ≤ 0)) := by
  cases applyCaching with
  | false =>
    unfold ttm_pool_alloc_acquired
    exact ttm_pool_alloc_mapdep_spec cfg r a hc
  | true =>
    have hcap := ttm_pool_apply_caching_spec cfg.isCached (a.dp - a.cpos) a.env hc
    unfold ttm_pool_alloc_acquired
    by_cases hcz : (ttm_pool_apply_caching cfg.isCached (a.dp - a.cpos) a.env).1 ≠ 0
    · rw [if_pos hcz]
      constructor
      · intro out hout
        cases hout
        exact ⟨_, rfl, by have := hcap.1; omega⟩
      · intro a2 pe hout
        cases hout
    · rw [if_neg hcz]
      have hmd := ttm_pool_alloc_mapdep_spec cfg r
        { a with env := (ttm_pool_apply_caching cfg.isCached (a.dp - a.cpos) a.env).2,
                 cpos := a.dp + 2 ^ a.order } hcap.2.1
      exact hmd

theorem ttm_bucket_fetch_some_eq (order : Nat) (st : TtmBuckets) (r : AllocRun)
    (st2 : TtmBuckets) (h : ttm_bucket_fetch order st = (some r, st2)) :
    st2.nrManaged = st.nrManaged - 2 ^ order := by
  unfold ttm_bucket_fetch at h
  cases hrow : st.row order with
  | nil => rw [hrow] at h; simp at h
  | cons x tl =>
    rw [hrow] at h
    simp only [Prod.mk.injEq, Option.some.injEq] at h
    rw [← h.2]

theorem ttm_env_alloc_page_eq (env : TtmEnv) (res : Option AllocRun) (env2 : TtmEnv)
    (h : ttm_env_alloc_page env = (res, env2)) :
    env2.cachingResults = env.cachingResults := by
  unfold ttm_env_alloc_page at h
  cases henv : env.allocResults with
  | nil => rw [henv] at h; cases h; rfl
  | cons x tl => rw [henv] at h; cases h; rfl

theorem ttm_pool_alloc_loop_spec (cfg : LoopCfg) :
    ∀ (fuel : Nat) (a : LoopArgs),
      a.numPages + a.order < fuel →
      (∀ c ∈ a.env.cachingResults, c ≤ 0) →
      (a.numPages ≠ 0 → 2 ^ a.order ≤ a.numPages) →
      (∀ d s e, ttm_pool_alloc_loop cfg fuel a = .ok d s e →
        pagesOfDepos d = pagesOfDepos a.depos + a.numPages ∧
        s.nrManaged = a.st.nrManaged - hitPages e ∧ freedEv e = []) ∧
      (∀ c s e, ttm_pool_alloc_loop cfg fuel a = .err c s e →
        c < 0 ∧ s.nrManaged = a.st.nrManaged - hitPages e ∧
        List.Perm (freedEv e) (a.depos ++ acquiredEv e)) := by
  intro fuel
  induction fuel with
  | zero => intro a hf hc hord; omega
  | succ f ih =>
    intro a hf hc hord
    by_cases hnp : a.numPages = 0
    · have hcap := ttm_pool_apply_caching_spec cfg.isCached (a.dp - a.cpos) a.env hc
      by_cases hfz : (ttm_pool_apply_caching cfg.isCached (a.dp - a.cpos) a.env).1 = 0
      · have hres : ttm_pool_alloc_loop cfg (f + 1) a = .ok a.depos a.st [] := by
          rw [ttm_pool_alloc_loop, if_pos hnp]
          dsimp only
          rw [if_pos hfz]
        constructor
        · intro d s e hout
          rw [hres] at hout
          cases hout
          exact ⟨by omega, by simp [hitPages], rfl⟩
        · intro c s e hout
          rw [hres] at hout
          cases hout
      · have hres : ttm_pool_alloc_loop cfg (f + 1) a =
            .err (ttm_pool_apply_caching cfg.isCached (a.dp - a.cpos) a.env).1 a.st
              (freeEvents a.depos) := by
          rw [ttm_pool_alloc_loop, if_pos hnp]
          dsimp only
          rw [if_neg hfz]
        constructor
        · intro d s e hout
          rw [hres] at hout
          cases hout
        · intro c s e hout
          rw [hres] at hout
          cases hout
          refine ⟨by have := hcap.1; omega, ?_, ?_⟩
          · rw [hitPages_freeEvents]
            omega
          · rw [freedEv_freeEvents, acquiredEv_freeEvents, List.append_nil]
    · cases hfetch : (if cfg.hasBucket then ttm_bucket_fetch a.order a.st else (none, a.st)) with
      | mk fres st2 =>
        cases fres with
        | some r =>
          have hst2 : st2.nrManaged = a.st.nrManaged - 2 ^ a.order := by
            by_cases hb : cfg.hasBucket
            · rw [if_pos hb] at hfetch
              exact ttm_bucket_fetch_some_eq a.order a.st r st2 hfetch
            · rw [if_neg hb] at hfetch
              simp at hfetch
          have hacq := ttm_pool_alloc_acquired_spec cfg true r { a with st := st2 } hc
          cases hres : ttm_pool_alloc_acquired cfg true r { a with st := st2 } with
          | inl out =>
            obtain ⟨c0, hout0, hc0⟩ := hacq.1 out hres
            dsimp only at hout0
            have hstep : ttm_pool_alloc_loop cfg (f + 1) a =
                out.withEv [.tryAt a.order a.numPages, .hit r a.order] := by
              rw [ttm_pool_alloc_loop, if_neg hnp, hfetch]
              dsimp only
              rw [hres]
            rw [hout0] at hstep
            simp only [AllocOut.withEv] at hstep
            constructor
            · intro d s e hout
              rw [hstep] at hout
              cases hout
            · intro c s e hout
              rw [hstep] at hout
              cases hout
              refine ⟨hc0, ?_, ?_⟩
              · simp only [List.append_eq, List.cons_append, List.nil_append, hitPages, hitPages_freeEvents]
                rw [hst2]
                push_cast
                ring
              · simp only [List.append_eq, List.cons_append, List.nil_append, freedEv, acquiredEv,
                  freedEv_freeEvents, acquiredEv_freeEvents, List.append_nil]
                exact (List.perm_append_singleton _ _).symm
          | inr a2pe =>
            cases a2pe with
            | mk a2 pe =>
              obtain ⟨ha2st, ha2dep, ha2np, ha2ord, hpeHit, hpeFreed, hpeAcq, hpeFail,
                hpeTry, hpeStart, ha2c⟩ := hacq.2 a2 pe hres
              dsimp only at ha2st ha2dep ha2np ha2ord
              have hpow1 : 1 ≤ 2 ^ a.order := Nat.one_le_two_pow
              have h2le : 2 ^ a.order ≤ a.numPages := hord hnp
              have ha2ordle : a2.order ≤ a.order := by rw [ha2ord]; exact min_le_left _ _
              have ha2bound : a2.numPages ≠ 0 → 2 ^ a2.order ≤ a2.numPages := by
                intro hz
                rw [ha2ord]
                calc 2 ^ min a.order (fls a2.numPages) ≤ 2 ^ fls a2.numPages :=
                  Nat.pow_le_pow_right (by omega) (min_le_right _ _)
                _ ≤ a2.numPages := two_pow_fls_le (by omega)
              have ihres := ih a2 (by omega) ha2c ha2bound
              have hstep : ttm_pool_alloc_loop cfg (f + 1) a =
                  (ttm_pool_alloc_loop cfg f a2).withEv
                    ([.tryAt a.order a.numPages, .hit r a.order] ++ pe) := by
                rw [ttm_pool_alloc_loop, if_neg hnp, hfetch]
                dsimp only
                rw [hres]
              cases hrec : ttm_pool_alloc_loop cfg f a2 with
              | ok d2 s2 e2 =>
                obtain ⟨hp2, hs2, hf2⟩ := ihres.1 d2 s2 e2 hrec
                rw [hrec] at hstep
                simp only [AllocOut.withEv] at hstep
                constructor
                · intro d s e hout
                  rw [hstep] at hout
                  cases hout
                  refine ⟨?_, ?_, ?_⟩
                  · rw [hp2, ha2dep, ha2np]
                    unfold pagesOfDepos
                    simp
                    omega
                  · simp only [List.append_eq, List.append_assoc, List.cons_append, List.nil_append,
                      hitPages_append, hitPages, hpeHit]
                    rw [hs2, ha2st, hst2]
                    push_cast
                    ring
                  · simp only [List.append_eq, List.append_assoc, List.cons_append, List.nil_append,
                      freedEv_append, freedEv, hpeFreed, hf2]
                · intro c s e hout
                  rw [hstep] at hout
                  cases hout
              | err c2 s2 e2 =>
                obtain ⟨hc2, hs2, hperm2⟩ := ihres.2 c2 s2 e2 hrec
                rw [hrec] at hstep
                simp only [AllocOut.withEv] at hstep
                constructor
                · intro d s e hout
                  rw [hstep] at hout
                  cases hout
                · intro c s e hout
                  rw [hstep] at hout
                  cases hout
                  refine ⟨hc2, ?_, ?_⟩
                  · simp only [List.append_eq, List.append_assoc, List.cons_append, List.nil_append,
                      hitPages_append, hitPages, hpeHit]
                    rw [hs2, ha2st, hst2]
                    push_cast
                    ring
                  · simp only [List.append_eq, List.append_assoc, List.cons_append, List.nil_append,
                      freedEv_append, freedEv, hpeFreed, acquiredEv_append, acquiredEv, hpeAcq]
                    have hthis := hperm2
                    rw [ha2dep] at hthis
                    have heq : (a.depos ++ [(r, a.order)]) ++ acquiredEv e2
                        = a.depos ++ ((r, a.order) :: acquiredEv e2) := by
                      rw [List.append_assoc]; rfl
                    rw [heq] at hthis
                    exact hthis
        | none =>
          cases halloc : ttm_env_alloc_page a.env with
          | mk ares env2 =>
            have henv2 : env2.cachingResults = a.env.cachingResults :=
              ttm_env_alloc_page_eq a.env ares env2 halloc
            have hc2 : ∀ c ∈ env2.cachingResults, c ≤ 0 := by rw [henv2]; exact hc
            cases ares with
            | some r =>
              have hacq := ttm_pool_alloc_acquired_spec cfg r.highMem r
                { a with env := env2 } hc2
              cases hres : ttm_pool_alloc_acquired cfg r.highMem r { a with env := env2 } with
              | inl out =>
                obtain ⟨c0, hout0, hc0⟩ := hacq.1 out hres
                dsimp only at hout0
                have hstep : ttm_pool_alloc_loop cfg (f + 1) a =
                    out.withEv [.tryAt a.order a.numPages, .fresh r a.order] := by
                  rw [ttm_pool_alloc_loop, if_neg hnp, hfetch]
                  dsimp only
                  rw [halloc]
                  dsimp only
                  rw [hres]
                rw [hout0] at hstep
                simp only [AllocOut.withEv] at hstep
                constructor
                · intro d s e hout
                  rw [hstep] at hout
                  cases hout
                · intro c s e hout
                  rw [hstep] at hout
                  cases hout
                  refine ⟨hc0, ?_, ?_⟩
                  · simp only [List.append_eq, List.cons_append, List.nil_append, hitPages, hitPages_freeEvents]
                    omega
                  · simp only [List.append_eq, List.cons_append, List.nil_append, freedEv, acquiredEv,
                      freedEv_freeEvents, acquiredEv_freeEvents, List.append_nil]
                    exact (List.perm_append_singleton _ _).symm
              | inr a2pe =>
                cases a2pe with
                | mk a2 pe =>
                  obtain ⟨ha2st, ha2dep, ha2np, ha2ord, hpeHit, hpeFreed, hpeAcq, hpeFail,
                    hpeTry, hpeStart, ha2c⟩ := hacq.2 a2 pe hres
                  dsimp only at ha2st ha2dep ha2np ha2ord
                  have hpow1 : 1 ≤ 2 ^ a.order := Nat.one_le_two_pow
                  have h2le : 2 ^ a.order ≤ a.numPages := hord hnp
                  have ha2ordle : a2.order ≤ a.order := by rw [ha2ord]; exact min_le_left _ _
                  have ha2bound : a2.numPages ≠ 0 → 2 ^ a2.order ≤ a2.numPages := by
                    intro hz
                    rw [ha2ord]
                    calc 2 ^ min a.order (fls a2.numPages) ≤ 2 ^ fls a2.numPages :=
                      Nat.pow_le_pow_right (by omega) (min_le_right _ _)
                    _ ≤ a2.numPages := two_pow_fls_le (by omega)
                  have ihres := ih a2 (by omega) ha2c ha2bound
                  have hstep : ttm_pool_alloc_loop cfg (f + 1) a =
                      (ttm_pool_alloc_loop cfg f a2).withEv
                        ([.tryAt a.order a.numPages, .fresh r a.order] ++ pe) := by
                    rw [ttm_pool_alloc_loop, if_neg hnp, hfetch]
                    dsimp only
                    rw [halloc]
                    dsimp only
                    rw [hres]
                  cases hrec : ttm_pool_alloc_loop cfg f a2 with
                  | ok d2 s2 e2 =>
                    obtain ⟨hp2, hs2, hf2⟩ := ihres.1 d2 s2 e2 hrec
                    rw [hrec] at hstep
                    simp only [AllocOut.withEv] at hstep
                    constructor
                    · intro d s e hout
                      rw [hstep] at hout
                      cases hout
                      refine ⟨?_, ?_, ?_⟩
                      · rw [hp2, ha2dep, ha2np]
                        unfold pagesOfDepos
                        simp
                        omega
                      · simp only [List.append_eq, List.append_assoc, List.cons_append, List.nil_append,
                          hitPages_append, hitPages, hpeHit]
                        rw [hs2, ha2st]
                        push_cast
                        ring
                      · simp only [List.append_eq, List.append_assoc, List.cons_append, List.nil_append,
                          freedEv_append, freedEv, hpeFreed, hf2]
                    · intro c s e hout
                      rw [hstep] at hout
                      cases hout
                  | err c2 s2 e2 =>
                    obtain ⟨hcc2, hs2, hperm2⟩ := ihres.2 c2 s2 e2 hrec
                    rw [hrec] at hstep
                    simp only [AllocOut.withEv] at hstep
                    constructor
                    · intro d s e hout
                      rw [hstep] at hout
                      cases hout
                    · intro c s e hout
                      rw [hstep] at hout
                      cases hout
                      refine ⟨hcc2, ?_, ?_⟩
                      · simp only [List.append_eq, List.append_assoc, List.cons_append, List.nil_append,
                          hitPages_append, hitPages, hpeHit]
                        rw [hs2, ha2st]
                        push_cast
                        ring
                      · simp only [List.append_eq, List.append_assoc, List.cons_append, List.nil_append,
                          freedEv_append, freedEv, hpeFreed, acquiredEv_append, acquiredEv,
                          hpeAcq]
                        have hthis := hperm2
                        rw [ha2dep] at hthis
                        have heq : (a.depos ++ [(r, a.order)]) ++ acquiredEv e2
                            = a.depos ++ ((r, a.order) :: acquiredEv e2) := by
                          rw [List.append_assoc]; rfl
                        rw [heq] at hthis
                        exact hthis
            | none =>
              by_cases hoz : a.order ≠ 0
              · have hpow1 : 1 ≤ 2 ^ a.order := Nat.one_le_two_pow
                have ha3bound : a.numPages ≠ 0 →
                    2 ^ min (a.order - 1) (fls a.numPages) ≤ a.numPages := by
                  intro hz
                  calc 2 ^ min (a.order - 1) (fls a.numPages) ≤ 2 ^ fls a.numPages :=
                    Nat.pow_le_pow_right (by omega) (min_le_right _ _)
                  _ ≤ a.numPages := two_pow_fls_le (by omega)
                have ihres := ih
                  { a with env := env2, order := min (a.order - 1) (fls a.numPages) }
                  (by dsimp only; have := min_le_left (a.order - 1) (fls a.numPages); omega)
                  hc2 ha3bound
                have hstep : ttm_pool_alloc_loop cfg (f + 1) a =
                    (ttm_pool_alloc_loop cfg f
                      { a with env := env2, order := min (a.order - 1) (fls a.numPages) }).withEv
                      [.tryAt a.order a.numPages, .allocFail a.order] := by
                  rw [ttm_pool_alloc_loop, if_neg hnp, hfetch]
                  dsimp only
                  rw [halloc]
                  dsimp only
                  rw [if_pos hoz]
                cases hrec : ttm_pool_alloc_loop cfg f
                    { a with env := env2, order := min (a.order - 1) (fls a.numPages) } with
                | ok d2 s2 e2 =>
                  obtain ⟨hp2, hs2, hf2⟩ := ihres.1 d2 s2 e2 hrec
                  dsimp only at hp2 hs2
                  rw [hrec] at hstep
                  simp only [AllocOut.withEv] at hstep
                  constructor
                  · intro d s e hout
                    rw [hstep] at hout
                    cases hout
                    refine ⟨hp2, ?_, ?_⟩
                    · simp only [List.append_eq, List.cons_append, List.nil_append, hitPages]
                      rw [hs2]
                    · simp only [List.append_eq, List.cons_append, List.nil_append, freedEv, hf2]
                  · intro c s e hout
                    rw [hstep] at hout
                    cases hout
                | err c2 s2 e2 =>
                  obtain ⟨hcc2, hs2, hperm2⟩ := ihres.2 c2 s2 e2 hrec
                  dsimp only at hs2 hperm2
                  rw [hrec] at hstep
                  simp only [AllocOut.withEv] at hstep
                  constructor
                  · intro d s e hout
                    rw [hstep] at hout
                    cases hout
                  · intro c s e hout
                    rw [hstep] at hout
                    cases hout
                    refine ⟨hcc2, ?_, ?_⟩
                    · simp only [List.append_eq, List.cons_append, List.nil_append, hitPages]
                      rw [hs2]
                    · simp only [List.append_eq, List.cons_append, List.nil_append, freedEv, acquiredEv]
                      exact hperm2
              · have hstep : ttm_pool_alloc_loop cfg (f + 1) a =
                    .err (-12) a.st
                      ([.tryAt a.order a.numPages, .allocFail a.order]
                        ++ freeEvents a.depos) := by
                  rw [ttm_pool_alloc_loop, if_neg hnp, hfetch]
                  dsimp only
                  rw [halloc]
                  dsimp only
                  rw [if_neg hoz]
                constructor
                · intro d s e hout
                  rw [hstep] at hout
                  cases hout
                · intro c s e hout
                  rw [hstep] at hout
                  cases hout
                  refine ⟨by omega, ?_, ?_⟩
                  · simp only [List.append_eq, List.cons_append, List.nil_append, hitPages, hitPages_freeEvents]
                    omega
                  · simp only [List.append_eq, List.cons_append, List.nil_append, freedEv, acquiredEv,
                      freedEv_freeEvents, acquiredEv_freeEvents, List.append_nil]
                    exact List.Perm.refl _

theorem AllocOut.events_withEv (pre : List AllocEv) (o : AllocOut) :
    (o.withEv pre).events = pre ++ o.events := by
  cases o <;> rfl

theorem ttm_pool_alloc_loop_events (cfg : LoopCfg) :
    ∀ (fuel : Nat) (a : LoopArgs),
      (∀ c ∈ a.env.cachingResults, c ≤ 0) →
      a.order ≤ min (MAX_ORDER - 1) (fls a.numPages) →
      (∀ p ∈ tryEvents (ttm_pool_alloc_loop cfg fuel a).events,
        p.1 ≤ min (MAX_ORDER - 1) (fls p.2)) ∧
      (hasAllocFail (ttm_pool_alloc_loop cfg fuel a).events = false →
        a.order = min (MAX_ORDER - 1) (fls a.numPages) →
        ∀ p ∈ startEvents (ttm_pool_alloc_loop cfg fuel a).events,
          p.1 = min (MAX_ORDER - 1) (fls p.2)) := by
  intro fuel
  induction fuel with
  | zero =>
    intro a hc horder1
    constructor
    · intro p hp
      simp [ttm_pool_alloc_loop, AllocOut.events, tryEvents] at hp
    · intro hfail heq p hp
      simp [ttm_pool_alloc_loop, AllocOut.events, startEvents] at hp
  | succ f ih =>
    intro a hc horder1
    by_cases hnp : a.numPages = 0
    · by_cases hfz : (ttm_pool_apply_caching cfg.isCached (a.dp - a.cpos) a.env).1 = 0
      · have hres : ttm_pool_alloc_loop cfg (f + 1) a = .ok a.depos a.st [] := by
          rw [ttm_pool_alloc_loop, if_pos hnp]
          dsimp only
          rw [if_pos hfz]
        rw [hres]
        constructor
        · intro p hp
          simp [AllocOut.events, tryEvents] at hp
        · intro hfail heq p hp
          simp [AllocOut.events, startEvents] at hp
      · have hres : ttm_pool_alloc_loop cfg (f + 1) a =
            .err (ttm_pool_apply_caching cfg.isCached (a.dp - a.cpos) a.env).1 a.st
              (freeEvents a.depos) := by
          rw [ttm_pool_alloc_loop, if_pos hnp]
          dsimp only
          rw [if_neg hfz]
        rw [hres]
        constructor
        · intro p hp
          simp [AllocOut.events, tryEvents_freeEvents] at hp
        · intro hfail heq p hp
          simp [AllocOut.events, startEvents_freeEvents] at hp
    · cases hfetch : (if cfg.hasBucket then ttm_bucket_fetch a.order a.st else (none, a.st)) with
      | mk fres st2 =>
        cases fres with
        | some r =>
          have hacq := ttm_pool_alloc_acquired_spec cfg true r { a with st := st2 } hc
          cases hres : ttm_pool_alloc_acquired cfg true r { a with st := st2 } with
          | inl out =>
            obtain ⟨c0, hout0, hc0⟩ := hacq.1 out hres
            dsimp only at hout0
            have hstep : ttm_pool_alloc_loop cfg (f + 1) a =
                out.withEv [.tryAt a.order a.numPages, .hit r a.order] := by
              rw [ttm_pool_alloc_loop, if_neg hnp, hfetch]
              dsimp only
              rw [hres]
            rw [hout0] at hstep
            rw [hstep]
            constructor
            · intro p hp
              simp only [AllocOut.withEv, AllocOut.events, List.append_eq, List.cons_append, List.nil_append,
                tryEvents, tryEvents_freeEvents, List.mem_singleton] at hp
              subst hp
              exact horder1
            · intro hfail heq p hp
              simp only [AllocOut.withEv, AllocOut.events, List.append_eq, List.cons_append, List.nil_append,
                startEvents, startEvents_freeEvents, List.not_mem_nil] at hp
          | inr a2pe =>
            cases a2pe with
            | mk a2 pe =>
              obtain ⟨ha2st, ha2dep, ha2np, ha2ord, hpeHit, hpeFreed, hpeAcq, hpeFail,
                hpeTry, hpeStart, ha2c⟩ := hacq.2 a2 pe hres
              dsimp only at ha2st ha2dep ha2np ha2ord
              have ha2o1 : a2.order ≤ min (MAX_ORDER - 1) (fls a2.numPages) := by
                refine le_min ?_ ?_
                · calc a2.order ≤ a.order := by rw [ha2ord]; exact min_le_left _ _
                  _ ≤ MAX_ORDER - 1 := le_trans horder1 (min_le_left _ _)
                · rw [ha2ord]; exact min_le_right _ _
              have ih2 := ih a2 ha2c ha2o1
              have hstep : ttm_pool_alloc_loop cfg (f + 1) a =
                  (ttm_pool_alloc_loop cfg f a2).withEv
                    ([.tryAt a.order a.numPages, .hit r a.order] ++ pe) := by
                rw [ttm_pool_alloc_loop, if_neg hnp, hfetch]
                dsimp only
                rw [hres]
              rw [hstep]
              constructor
              · intro p hp
                simp only [AllocOut.events_withEv, List.append_assoc, List.append_eq, List.cons_append,
                  List.nil_append, tryEvents_append, tryEvents, hpeTry] at hp
                rcases List.mem_cons.mp hp with hEq | hp2
                · subst hEq
                  exact horder1
                · exact ih2.1 p hp2
              · intro hfail heq p hp
                simp only [AllocOut.events_withEv, List.append_assoc, List.append_eq, List.cons_append,
                  List.nil_append, hasAllocFail_append, hasAllocFail, hpeFail,
                  Bool.false_or] at hfail
                have hfm : fls a2.numPages ≤ fls a.numPages :=
                  fls_mono (by rw [ha2np]; exact Nat.sub_le _ _)
                have heqa2 : a2.order = min (MAX_ORDER - 1) (fls a2.numPages) := by
                  rw [ha2ord, heq]; omega
                simp only [AllocOut.events_withEv, List.append_assoc, List.append_eq, List.cons_append,
                  List.nil_append, startEvents_append, startEvents, hpeStart] at hp
                rcases List.mem_append.mp hp with hp1 | hp2
                · by_cases hz : a2.numPages = 0
                  · rw [if_pos hz] at hp1
                    simp at hp1
                  · rw [if_neg hz, List.mem_singleton] at hp1
                    subst hp1
                    exact heqa2
                · exact ih2.2 hfail heqa2 p hp2
        | none =>
          cases halloc : ttm_env_alloc_page a.env with
          | mk ares env2 =>
            have henv2 : env2.cachingResults = a.env.cachingResults :=
              ttm_env_alloc_page_eq a.env ares env2 halloc
            have hc2 : ∀ c ∈ env2.cachingResults, c ≤ 0 := by rw [henv2]; exact hc
            cases ares with
            | some r =>
              have hacq := ttm_pool_alloc_acquired_spec cfg r.highMem r
                { a with env := env2 } hc2
              cases hres : ttm_pool_alloc_acquired cfg r.highMem r { a with env := env2 } with
              | inl out =>
                obtain ⟨c0, hout0, hc0⟩ := hacq.1 out hres
                dsimp only at hout0
                have hstep : ttm_pool_alloc_loop cfg (f + 1) a =
                    out.withEv [.tryAt a.order a.numPages, .fresh r a.order] := by
                  rw [ttm_pool_alloc_loop, if_neg hnp, hfetch]
                  dsimp only
                  rw [halloc]
                  dsimp only
                  rw [hres]
                rw [hout0] at hstep
                rw [hstep]
                constructor
                · intro p hp
                  simp only [AllocOut.withEv, AllocOut.events, List.append_eq, List.cons_append, List.nil_append,
                    tryEvents, tryEvents_freeEvents, List.mem_singleton] at hp
                  subst hp
                  exact horder1
                · intro hfail heq p hp
                  simp only [AllocOut.withEv, AllocOut.events, List.append_eq, List.cons_append, List.nil_append,
                    startEvents, startEvents_freeEvents, List.not_mem_nil] at hp
              | inr a2pe =>
                cases a2pe with
                | mk a2 pe =>
                  obtain ⟨ha2st, ha2dep, ha2np, ha2ord, hpeHit, hpeFreed, hpeAcq, hpeFail,
                    hpeTry, hpeStart, ha2c⟩ := hacq.2 a2 pe hres
                  dsimp only at ha2st ha2dep ha2np ha2ord
                  have ha2o1 : a2.order ≤ min (MAX_ORDER - 1) (fls a2.numPages) := by
                    refine le_min ?_ ?_
                    · calc a2.order ≤ a.order := by rw [ha2ord]; exact min_le_left _ _
                      _ ≤ MAX_ORDER - 1 := le_trans horder1 (min_le_left _ _)
                    · rw [ha2ord]; exact min_le_right _ _
                  have ih2 := ih a2 ha2c ha2o1
                  have hstep : ttm_pool_alloc_loop cfg (f + 1) a =
                      (ttm_pool_alloc_loop cfg f a2).withEv
                        ([.tryAt a.order a.numPages, .fresh r a.order] ++ pe) := by
                    rw [ttm_pool_alloc_loop, if_neg hnp, hfetch]
                    dsimp only
                    rw [halloc]
                    dsimp only
                    rw [hres]
                  rw [hstep]
                  constructor
                  · intro p hp
                    simp only [AllocOut.events_withEv, List.append_assoc, List.append_eq, List.cons_append,
                      List.nil_append, tryEvents_append, tryEvents, hpeTry] at hp
                    rcases List.mem_cons.mp hp with hEq | hp2
                    · subst hEq
                      exact horder1
                    · exact ih2.1 p hp2
                  · intro hfail heq p hp
                    simp only [AllocOut.events_withEv, List.append_assoc, List.append_eq, List.cons_append,
                      List.nil_append, hasAllocFail_append, hasAllocFail, hpeFail,
                      Bool.false_or] at hfail
                    have hfm : fls a2.numPages ≤ fls a.numPages :=
                  fls_mono (by rw [ha2np]; exact Nat.sub_le _ _)
                    have heqa2 : a2.order = min (MAX_ORDER - 1) (fls a2.numPages) := by
                      rw [ha2ord, heq]; omega
                    simp only [AllocOut.events_withEv, List.append_assoc, List.append_eq, List.cons_append,
                      List.nil_append, startEvents_append, startEvents, hpeStart] at hp
                    rcases List.mem_append.mp hp with hp1 | hp2
                    · by_cases hz : a2.numPages = 0
                      · rw [if_pos hz] at hp1
                        simp at hp1
                      · rw [if_neg hz, List.mem_singleton] at hp1
                        subst hp1
                        exact heqa2
                    · exact ih2.2 hfail heqa2 p hp2
            | none =>
              by_cases hoz : a.order ≠ 0
              · have ha3o1 : min (a.order - 1) (fls a.numPages) ≤
                    min (MAX_ORDER - 1) (fls a.numPages) := by omega
                have ih3 := ih
                  { a with env := env2, order := min (a.order - 1) (fls a.numPages) }
                  hc2 ha3o1
                have hstep : ttm_pool_alloc_loop cfg (f + 1) a =
                    (ttm_pool_alloc_loop cfg f
                      { a with env := env2, order := min (a.order - 1) (fls a.numPages) }).withEv
                      [.tryAt a.order a.numPages, .allocFail a.order] := by
                  rw [ttm_pool_alloc_loop, if_neg hnp, hfetch]
                  dsimp only
                  rw [halloc]
                  dsimp only
                  rw [if_pos hoz]
                rw [hstep]
                constructor
                · intro p hp
                  simp only [AllocOut.events_withEv, List.append_eq, List.cons_append, List.nil_append,
                    tryEvents] at hp
                  rcases List.mem_cons.mp hp with hEq | hp2
                  · subst hEq
                    exact horder1
                  · exact ih3.1 p hp2
                · intro hfail heq p hp
                  simp only [AllocOut.events_withEv, List.append_eq, List.cons_append,
                    List.nil_append, hasAllocFail] at hfail
                  simp at hfail
              · have hstep : ttm_pool_alloc_loop cfg (f + 1) a =
                    .err (-12) a.st
                      ([.tryAt a.order a.numPages, .allocFail a.order]
                        ++ freeEvents a.depos) := by
                  rw [ttm_pool_alloc_loop, if_neg hnp, hfetch]
                  dsimp only
                  rw [halloc]
                  dsimp only
                  rw [if_neg hoz]
                rw [hstep]
                constructor
                · intro p hp
                  simp only [AllocOut.events, List.append_eq, List.cons_append, List.nil_append,
                    tryEvents, tryEvents_freeEvents, List.mem_singleton] at hp
                  subst hp
                  exact horder1
                · intro hfail heq p hp
                  simp only [AllocOut.events, List.append_eq, List.cons_append,
                    List.nil_append, hasAllocFail] at hfail
                  simp at hfail

def c1_bkts : TtmBuckets :=
  { row := fun o => if o = 0 then [{ id := 7, highMem := false }] else [], nrManaged := 1 }

def c1_env : TtmEnv := { allocResults := [none, none], cachingResults := [], mapOk := [] }

def c1w_bkts : TtmBuckets := { row := fun _ => [], nrManaged := 0 }

def c1w_env : TtmEnv :=
  { allocResults := [some { id := 1, highMem := false }], cachingResults := [], mapOk := [] }

/-- C1 counterexample: a populate request for 2 base pages against a registry
holding one order-0 run (global counter 1) with a failing page allocator
returns an error, but the global counter ends at 0, not at its pre-call
value 1: `ttm_pool_alloc` hands the pooled page back to the system allocator
(`ttm_pool_free_page`) without undoing the `allocated_pages` decrement made
when the page left the pool. -/
theorem populate_rollback_counterexample :
    (ttm_pool_alloc true false .ttm_cached false 2 c1_bkts c1_env).isOk = false ∧
    c1_bkts.nrManaged = 1 ∧
    (ttm_pool_alloc true false .ttm_cached false 2 c1_bkts c1_env).counter = 0 := by
  decide

/-- C1 (amended): for every populate request, `ttm_pool_alloc` either fills the
caller's array with exactly N base pages while freeing nothing, or returns a
negative error code having released every acquired run (the freed runs are a
permutation of all runs acquired); in both cases the global counter drops by
exactly the base pages taken out of pool buckets (`hitPages`), so on the error
path pages taken from a bucket are returned to the allocator without restoring
the counter, rather than leaving it at its pre-call value. -/
theorem populate_rollback_amended (uda ud32 : Bool) (caching : TtmCaching)
    (hasDma : Bool) (N : Nat) (st : TtmBuckets) (env : TtmEnv)
    (hc : ∀ c ∈ env.cachingResults, c ≤ 0) (hN : 1 ≤ N) :
    (∀ d s e, ttm_pool_alloc uda ud32 caching hasDma N st env = .ok d s e →
      pagesOfDepos d = N ∧ s.nrManaged = st.nrManaged - hitPages e ∧ freedEv e = []) ∧
    (∀ c s e, ttm_pool_alloc uda ud32 caching hasDma N st env = .err c s e →
      c < 0 ∧ List.Perm (freedEv e) (acquiredEv e) ∧
      s.nrManaged = st.nrManaged - hitPages e) := by
  have hord : N ≠ 0 → 2 ^ min (MAX_ORDER - 1) (fls N) ≤ N := by
    intro hz
    calc 2 ^ min (MAX_ORDER - 1) (fls N) ≤ 2 ^ fls N :=
      Nat.pow_le_pow_right (by omega) (min_le_right _ _)
    _ ≤ N := two_pow_fls_le (by omega)
  have hM : MAX_ORDER = 11 := rfl
  have hfuel : N + min (MAX_ORDER - 1) (fls N) < N + MAX_ORDER + 1 := by
    have := min_le_left (MAX_ORDER - 1) (fls N)
    omega
  have hspec := ttm_pool_alloc_loop_spec
    { hasBucket := ttm_pool_select_some uda caching,
      isCached := caching = TtmCaching.ttm_cached, hasDma := hasDma, useDmaAlloc := uda }
    (N + MAX_ORDER + 1)
    { numPages := N, order := min (MAX_ORDER - 1) (fls N), st := st, env := env,
      depos := [], dp := 0, cpos := 0 }
    hfuel hc hord
  have hdef : ttm_pool_alloc uda ud32 caching hasDma N st env =
      (ttm_pool_alloc_loop
        { hasBucket := ttm_pool_select_some uda caching,
          isCached := caching = TtmCaching.ttm_cached, hasDma := hasDma, useDmaAlloc := uda }
        (N + MAX_ORDER + 1)
        { numPages := N, order := min (MAX_ORDER - 1) (fls N), st := st, env := env,
          depos := [], dp := 0, cpos := 0 }).withEv
      (if N = 0 then [] else [.startIter (min (MAX_ORDER - 1) (fls N)) N]) := rfl
  constructor
  · intro d s e hout
    rw [hdef] at hout
    cases hrun : ttm_pool_alloc_loop
        { hasBucket := ttm_pool_select_some uda caching,
          isCached := caching = TtmCaching.ttm_cached, hasDma := hasDma, useDmaAlloc := uda }
        (N + MAX_ORDER + 1)
        { numPages := N, order := min (MAX_ORDER - 1) (fls N), st := st, env := env,
          depos := [], dp := 0, cpos := 0 } with
    | ok d0 s0 e0 =>
      obtain ⟨hp0, hs0, hf0⟩ := hspec.1 d0 s0 e0 hrun
      dsimp only at hp0 hs0
      rw [hrun] at hout
      simp only [AllocOut.withEv] at hout
      cases hout
      refine ⟨?_, ?_, ?_⟩
      · rw [hp0]
        simp [pagesOfDepos]
      · have hh : hitPages ((if N = 0 then ([] : List AllocEv)
            else [.startIter (min (MAX_ORDER - 1) (fls N)) N]) ++ e0) = hitPages e0 := by
          split <;> simp [hitPages_append, hitPages]
        rw [hh]
        exact hs0
      · rw [freedEv_append, hf0, List.append_nil]
        split <;> rfl
    | err c0 s0 e0 =>
      rw [hrun] at hout
      simp only [AllocOut.withEv] at hout
      cases hout
  · intro c s e hout
    rw [hdef] at hout
    cases hrun : ttm_pool_alloc_loop
        { hasBucket := ttm_pool_select_some uda caching,
          isCached := caching = TtmCaching.ttm_cached, hasDma := hasDma, useDmaAlloc := uda }
        (N + MAX_ORDER + 1)
        { numPages := N, order := min (MAX_ORDER - 1) (fls N), st := st, env := env,
          depos := [], dp := 0, cpos := 0 } with
    | ok d0 s0 e0 =>
      rw [hrun] at hout
      simp only [AllocOut.withEv] at hout
      cases hout
    | err c0 s0 e0 =>
      obtain ⟨hc0, hs0, hperm0⟩ := hspec.2 c0 s0 e0 hrun
      dsimp only at hs0 hperm0
      simp only [List.nil_append] at hperm0
      rw [hrun] at hout
      simp only [AllocOut.withEv] at hout
      cases hout
      refine ⟨hc0, ?_, ?_⟩
      · rw [freedEv_append, acquiredEv_append]
        have h1 : freedEv (if N = 0 then ([] : List AllocEv)
            else [.startIter (min (MAX_ORDER - 1) (fls N)) N]) = [] := by split <;> rfl
        have h2 : acquiredEv (if N = 0 then ([] : List AllocEv)
            else [.startIter (min (MAX_ORDER - 1) (fls N)) N]) = [] := by split <;> rfl
        rw [h1, h2, List.nil_append, List.nil_append]
        exact hperm0
      · have hh : hitPages ((if N = 0 then ([] : List AllocEv)
            else [.startIter (min (MAX_ORDER - 1) (fls N)) N]) ++ e0) = hitPages e0 := by
          split <;> simp [hitPages_append, hitPages]
        rw [hh]
        exact hs0

/-- C1 witness: instantiating the amended theorem on a populate request for one
page against an empty registry with a working allocator, with both hypotheses
discharged concretely. -/
theorem populate_rollback_amended_witness :
    (∀ c ∈ c1w_env.cachingResults, c ≤ 0) ∧ 1 ≤ 1 ∧
    (∀ d s e, ttm_pool_alloc true false .ttm_cached false 1 c1w_bkts c1w_env = .ok d s e →
      pagesOfDepos d = 1 ∧ s.nrManaged = c1w_bkts.nrManaged - hitPages e ∧ freedEv e = []) :=
  ⟨by decide, by decide,
    (populate_rollback_amended true false .ttm_cached false 1 c1w_bkts c1w_env
      (by decide) (by decide)).1⟩

def c3_bkts : TtmBuckets := { row := fun _ => [], nrManaged := 0 }

def c3_env : TtmEnv :=
  { allocResults := [none, none, none,
      some { id := 1, highMem := false }, some { id := 2, highMem := false },
      some { id := 3, highMem := false }, some { id := 4, highMem := false },
      some { id := 5, highMem := false }, some { id := 6, highMem := false },
      some { id := 7, highMem := false }, some { id := 8, highMem := false },
      some { id := 9, highMem := false }],
    cachingResults := [], mapOk := [] }

def c3w_bkts : TtmBuckets := { row := fun _ => [], nrManaged := 0 }

def c3w_env : TtmEnv :=
  { allocResults := [some { id := 1, highMem := false }, some { id := 2, highMem := false }],
    cachingResults := [], mapOk := [] }

/-- C3 counterexample: populate of 9 pages with an empty pool and an allocator
that rejects every order above 0: the first iteration tries orders 3, 2, 1, 0,
but the second iteration starts at order 0 (`startEvents` entry (0, 8)), not at
`min(MAX_ORDER-1, __fls(8)) = 3`, and order 3 is never tried for the remaining
8 pages: the fallback order persists because the loop only ever shrinks `order`
(`order = min(order, __fls(num_pages))`). -/
theorem order_selection_counterexample :
    (ttm_pool_alloc true false .ttm_cached false 9 c3_bkts c3_env).isOk = true ∧
    (startEvents (ttm_pool_alloc true false .ttm_cached false 9 c3_bkts c3_env).events).get? 1
      = some (0, 8) ∧
    (0, 8) ∈ tryEvents (ttm_pool_alloc true false .ttm_cached false 9 c3_bkts c3_env).events ∧
    (3, 8) ∉ tryEvents (ttm_pool_alloc true false .ttm_cached false 9 c3_bkts c3_env).events ∧
    (0 : Nat) ≠ min (MAX_ORDER - 1) (fls 8) := by
  decide

/-- C3 (amended): on every iteration the order actually requested is at most
`min(MAX_ORDER-1, __fls(remaining))`, and as long as the underlying allocator
never fails, every iteration starts exactly at `min(MAX_ORDER-1,
__fls(remaining))`; after an allocator failure the fallback order persists for
subsequent iterations (it does not reset), as the counterexample shows. -/
theorem order_selection_amended (uda ud32 : Bool) (caching : TtmCaching)
    (hasDma : Bool) (N : Nat) (st : TtmBuckets) (env : TtmEnv)
    (hc : ∀ c ∈ env.cachingResults, c ≤ 0) :
    (∀ p ∈ tryEvents (ttm_pool_alloc uda ud32 caching hasDma N st env).events,
      p.1 ≤ min (MAX_ORDER - 1) (fls p.2)) ∧
    (hasAllocFail (ttm_pool_alloc uda ud32 caching hasDma N st env).events = false →
      ∀ p ∈ startEvents (ttm_pool_alloc uda ud32 caching hasDma N st env).events,
        p.1 = min (MAX_ORDER - 1) (fls p.2)) := by
  have hev := ttm_pool_alloc_loop_events
    { hasBucket := ttm_pool_select_some uda caching,
      isCached := caching = TtmCaching.ttm_cached, hasDma := hasDma, useDmaAlloc := uda }
    (N + MAX_ORDER + 1)
    { numPages := N, order := min (MAX_ORDER - 1) (fls N), st := st, env := env,
      depos := [], dp := 0, cpos := 0 }
    hc (le_refl _)
  have hdef : ttm_pool_alloc uda ud32 caching hasDma N st env =
      (ttm_pool_alloc_loop
        { hasBucket := ttm_pool_select_some uda caching,
          isCached := caching = TtmCaching.ttm_cached, hasDma := hasDma, useDmaAlloc := uda }
        (N + MAX_ORDER + 1)
        { numPages := N, order := min (MAX_ORDER - 1) (fls N), st := st, env := env,
          depos := [], dp := 0, cpos := 0 }).withEv
      (if N = 0 then [] else [.startIter (min (MAX_ORDER - 1) (fls N)) N]) := rfl
  have hpre_try : tryEvents (if N = 0 then ([] : List AllocEv)
      else [.startIter (min (MAX_ORDER - 1) (fls N)) N]) = [] := by split <;> rfl
  have hpre_fail : hasAllocFail (if N = 0 then ([] : List AllocEv)
      else [.startIter (min (MAX_ORDER - 1) (fls N)) N]) = false := by split <;> rfl
  have hpre_start : startEvents (if N = 0 then ([] : List AllocEv)
      else [.startIter (min (MAX_ORDER - 1) (fls N)) N])
      = (if N = 0 then [] else [(min (MAX_ORDER - 1) (fls N), N)]) := by split <;> rfl
  constructor
  · intro p hp
    rw [hdef, AllocOut.events_withEv, tryEvents_append, hpre_try, List.nil_append] at hp
    exact hev.1 p hp
  · intro hfail p hp
    rw [hdef, AllocOut.events_withEv, hasAllocFail_append, hpre_fail, Bool.false_or] at hfail
    rw [hdef, AllocOut.events_withEv, startEvents_append, hpre_start] at hp
    rcases List.mem_append.mp hp with hp1 | hp2
    · by_cases hz : N = 0
      · rw [if_pos hz] at hp1
        simp at hp1
      · rw [if_neg hz, List.mem_singleton] at hp1
        subst hp1
        rfl
    · exact hev.2 hfail rfl p hp2

/-- C3 witness: instantiating the amended theorem on a populate request for 3
pages with a fully working allocator: no allocation failure occurs and the
start event (0, 1) of the last iteration indeed satisfies
`0 = min(MAX_ORDER-1, __fls(1))`. -/
theorem order_selection_amended_witness :
    (0, 1) ∈ startEvents (ttm_pool_alloc true false .ttm_cached false 3 c3w_bkts c3w_env).events
    ∧ (0 : Nat) = min (MAX_ORDER - 1) (fls 1) :=
  ⟨by decide,
    (order_selection_amended true false .ttm_cached false 3 c3w_bkts c3w_env (by decide)).2
      (by decide) (0, 1) (by decide)⟩
